import Mathlib

/-!
Verification development for the BaconBot EverQuest log-parsing engine.

The definitions below are a shallow embedding of the JavaScript sources:
  * `src/lib/parser.js` (batch `parseLog`, `normalizeZone`, `zoneMatchesFilters`),
  * `src/unnamed/part_006` (the distribution parser: `localToUTC`,
    `parseEQDateUTC`, `isInRaidWindow`, `isApprovedZone`, `autoParseLog`),
  * `src/Bacon Bot Distribution/lib/log-watcher.js` (`LogWatcher._processLine`,
    `LogWatcher._readNew`).

Modelling conventions:
  * JS `Date` values are milliseconds since the Unix epoch, embedded as `Int`.
  * The regex layer (`LINE_RE`, `ZONE_ENTRY_RE`, `WHO_FOOTER_RE`,
    `WHO_PLAYER_RE`, `SELF_LOOT_RE`, `OTHER_LOOT_RE`) is embedded as the
    inductive `Content`: each constructor stands for the unique pattern a
    content string can match (the six regexes are pairwise disjoint: zone
    entries start with "You have entered", footers with "There are", player
    rows with a bracket, loot rows with a double dash, and the self/other
    loot shapes differ in "have looted" versus "has looted").  A physical
    line either fails `LINE_RE`/timestamp parsing (`Line.junk`) or carries a
    parsed instant and classified content (`Line.entry`).
  * JS `Map` (insertion ordered) is an association list `List (key, value)`;
    JS `Set` is an insertion-ordered duplicate-free `List`.
  * Character case mapping and whitespace tests use the ASCII fragment both
    languages agree on; every name appearing in the sources is ASCII.
-/

/-! ## String primitives (char-list models of the JS string operations used) -/

/-- Model of JS `String.prototype.toLowerCase` on the ASCII fragment. -/
def lowerStr (s : String) : String :=
  String.mk (s.data.map Char.toLower)

/-- Model of JS `String.prototype.trim` (strip leading and trailing whitespace). -/
def trimChars (cs : List Char) : List Char :=
  ((cs.dropWhile Char.isWhitespace).reverse.dropWhile Char.isWhitespace).reverse

/-- `isPrefixChars n h` is true when `n` is a prefix of `h`. -/
def isPrefixChars : List Char → List Char → Bool
  | [], _ => true
  | _ :: _, [] => false
  | a :: as, b :: bs => a == b && isPrefixChars as bs

/-- `isInfixChars n h` is true when `n` occurs contiguously inside `h`. -/
def isInfixChars : List Char → List Char → Bool
  | n, [] => n.isEmpty
  | n, c :: hs => isPrefixChars n (c :: hs) || isInfixChars n hs

/-- Model of JS `hay.includes(needle)`. -/
def jsIncludes (hay needle : String) : Bool :=
  isInfixChars needle.data hay.data

/-- Model of `.replace(/^the\s+/, '')`: remove a leading "the" followed by a
(maximal, nonempty) whitespace run; anchored at the very start of the string. -/
def stripLeadingThe (cs : List Char) : List Char :=
  match cs with
  | 't' :: 'h' :: 'e' :: c :: rest =>
      if c.isWhitespace then (c :: rest).dropWhile Char.isWhitespace
      else 't' :: 'h' :: 'e' :: c :: rest
  | other => other

/-- `normalizeZone` from parser.js line 60: lowercase, strip a leading
"the"+whitespace, then trim — in exactly that order. -/
def normalizeZone (name : String) : String :=
  String.mk (trimChars (stripLeadingThe ((lowerStr name).data)))

/-- `zoneMatchesFilters` from parser.js line 69, on a present (string) zone
name: falsy zone name or empty filter list never match; otherwise bidirectional
substring test between the normalized zone name and each filter, as given. -/
def zoneMatchesFiltersS (zoneName : String) (filters : List String) : Bool :=
  if zoneName == "" || filters.isEmpty then false
  else
    let norm := normalizeZone zoneName
    filters.any (fun f => jsIncludes norm f || jsIncludes f norm)

/-- `zoneMatchesFilters` including the JS null case (`!zoneName`). -/
def zoneMatchesFilters (zoneName : Option String) (filters : List String) : Bool :=
  match zoneName with
  | none => false
  | some z => zoneMatchesFiltersS z filters

/-! ## Data model -/

/-- A parsed roster-entry row (`WHO_PLAYER_RE` capture groups after the
level/class split of parser.js lines 174–188). -/
structure Player where
  name : String
  level : Option Int
  cls : Option String
  race : Option String
  guild : Option String
deriving DecidableEq, Repr

/-- A stored attendance record: the player fields plus first/last-seen bounds
(`{ ...p, firstSeen, lastSeen }` in the sources). -/
structure AttRecord where
  name : String
  level : Option Int
  cls : Option String
  race : Option String
  guild : Option String
  firstSeen : Int
  lastSeen : Int
deriving DecidableEq, Repr

/-- A loot event as pushed by the sources. `playerName` is an `Option`
because batch self-loot stores the (possibly null) `characterName`. -/
structure Loot where
  playerName : Option String
  itemName : String
  timestamp : Int
  zone : Option String
deriving DecidableEq, Repr

/-- Classification of the content part of a log line (see file header). -/
inductive Content where
  | zoneEntry (zone : String)
  | whoStart
  | whoSeparator
  | whoFooter (zone : String)
  | whoPlayer (p : Player)
  | selfLoot (item : String)
  | otherLoot (player : String) (item : String)
  | other
deriving DecidableEq, Repr

/-- A physical log line: `junk` for lines failing `LINE_RE` or timestamp
parsing, `entry ts c` for a line with parsed instant `ts` and content `c`. -/
inductive Line where
  | junk
  | entry (ts : Int) (content : Content)
deriving DecidableEq, Repr

/-! ## Batch parser (`parseLog`, parser.js lines 88–225) -/

/-- Scanner state of the batch parse loop.  `whoBlockTime` is `null` in the
source until the first block start assigns it; it is only ever read after such
an assignment, so an arbitrary initial value (0) is observationally equal. -/
structure ScanState where
  currentZone : Option String
  inWhoBlock : Bool
  whoBlockTime : Int
  whoPlayers : List Player
  attendanceMap : List (String × AttRecord)
  lootEvents : List Loot
deriving DecidableEq, Repr

def initScanState : ScanState :=
  { currentZone := none, inWhoBlock := false, whoBlockTime := 0,
    whoPlayers := [], attendanceMap := [], lootEvents := [] }

/-- Map lookup (`attendanceMap.get(key)`). -/
def lookupKey {α : Type} (m : List (String × α)) (key : String) : Option α :=
  (m.find? (fun kv => kv.1 == key)).map (fun kv => kv.2)

/-- The upsert body of parser.js lines 153–166 for one roster entry `p` at
block instant `t`: insert on a fresh lowercased key, otherwise widen the
stored first/last-seen bounds (descriptive fields are left untouched). -/
def upsertAttendance (m : List (String × AttRecord)) (t : Int) (p : Player) :
    List (String × AttRecord) :=
  let key := lowerStr p.name
  match lookupKey m key with
  | none =>
      m ++ [(key, { name := p.name, level := p.level, cls := p.cls,
                    race := p.race, guild := p.guild,
                    firstSeen := t, lastSeen := t })]
  | some _ =>
      m.map (fun kv =>
        if kv.1 == key then
          (kv.1, { kv.2 with
                     firstSeen := if t < kv.2.firstSeen then t else kv.2.firstSeen,
                     lastSeen := if t > kv.2.lastSeen then t else kv.2.lastSeen })
        else kv)

/-- Flush a whole buffered roster block into the attendance map. -/
def flushWho (m : List (String × AttRecord)) (t : Int) (ps : List Player) :
    List (String × AttRecord) :=
  ps.foldl (fun m p => upsertAttendance m t p) m

/-- Static batch configuration: the caller arguments of `parseLog` after the
`zones.map(normalizeZone)` pre-normalization of line 89. -/
structure BatchCfg where
  startTime : Int
  endTime : Int
  zoneFilters : List String
  characterName : Option String
deriving Repr

/-- One iteration of the batch `for await` loop (parser.js lines 105–218),
minus the line counter, which is just the running index of the loop. -/
def parseLogStep (cfg : BatchCfg) (st : ScanState) (l : Line) : ScanState :=
  match l with
  | .junk => st
  | .entry ts content =>
    if ts < cfg.startTime || ts > cfg.endTime then st
    else
      match content with
      | .zoneEntry z => { st with currentZone := some z, inWhoBlock := false }
      | .whoStart => { st with inWhoBlock := true, whoBlockTime := ts, whoPlayers := [] }
      | c =>
        if st.inWhoBlock then
          match c with
          | .whoSeparator => st
          | .whoFooter whoZone =>
              let st' := { st with inWhoBlock := false }
              if zoneMatchesFiltersS whoZone cfg.zoneFilters then
                { st' with attendanceMap := flushWho st'.attendanceMap st'.whoBlockTime st'.whoPlayers }
              else st'
          | .whoPlayer p => { st with whoPlayers := st.whoPlayers ++ [p] }
          | _ => st
        else
          if !(zoneMatchesFilters st.currentZone cfg.zoneFilters) then st
          else
            match c with
            | .selfLoot item =>
                { st with lootEvents := st.lootEvents ++
                    [{ playerName := cfg.characterName, itemName := item,
                       timestamp := ts, zone := st.currentZone }] }
            | .otherLoot pl item =>
                { st with lootEvents := st.lootEvents ++
                    [{ playerName := some pl, itemName := item,
                       timestamp := ts, zone := st.currentZone }] }
            | _ => st

def parseLogScan (cfg : BatchCfg) (st : ScanState) (ls : List Line) : ScanState :=
  ls.foldl (parseLogStep cfg) st

/-- Result shape of `parseLog`. -/
structure BatchResult where
  attendance : List AttRecord
  loot : List Loot
  lineCount : Nat
deriving DecidableEq, Repr

/-- `parseLog`: normalize the caller zone filters, scan every line, return
the attendance values in map insertion order plus the loot list. -/
def parseLog (startTime endTime : Int) (zones : List String)
    (characterName : Option String) (ls : List Line) : BatchResult :=
  let cfg : BatchCfg :=
    { startTime := startTime, endTime := endTime,
      zoneFilters := zones.map normalizeZone, characterName := characterName }
  let st := parseLogScan cfg initScanState ls
  { attendance := st.attendanceMap.map (fun kv => kv.2),
    loot := st.lootEvents,
    lineCount := ls.length }

/-! ## Dates and instants (JS `Date` methods used by the distribution parser) -/

/-- `Date.prototype.getUTCHours` on an epoch-millisecond value. -/
def getUTCHours (ms : Int) : Int :=
  (ms.ediv 3600000).emod 24

/-- `Date.prototype.getUTCDay` (0 = Sunday; the epoch day was a Thursday). -/
def getUTCDay (ms : Int) : Int :=
  ((ms.ediv 86400000) + 4).emod 7

/-- Days from civil date (proleptic Gregorian, month in 1..12), the standard
`days_from_civil` algorithm realizing the calendar arithmetic of JS `Date.UTC`. -/
def daysFromCivil (y0 m d : Int) : Int :=
  let y := y0 - (if m <= 2 then 1 else 0)
  let era := y.fdiv 400
  let yoe := y - era * 400
  let doy := (153 * (m + (if m > 2 then (-3 : Int) else 9)) + 2).ediv 5 + d - 1
  let doe := yoe * 365 + yoe.ediv 4 - yoe.ediv 100 + doy
  era * 146097 + doe - 719468

/-- Civil date from a day number (inverse decomposition, `civil_from_days`). -/
def civilFromDays (z0 : Int) : Int × Int × Int :=
  let z := z0 + 719468
  let era := z.fdiv 146097
  let doe := z - era * 146097
  let yoe := (doe - doe.ediv 1460 + doe.ediv 36524 - doe.ediv 146096).ediv 365
  let y := yoe + era * 400
  let doy := doe - (365 * yoe + yoe.ediv 4 - yoe.ediv 100)
  let mp := (5 * doy + 2).ediv 153
  let d := doy - (153 * mp + 2).ediv 5 + 1
  let m := mp + (if mp < 10 then (3 : Int) else -9)
  (y + (if m <= 2 then 1 else 0), m, d)

/-- JS `Date.UTC(year, month, day, hour, minute, second)` in epoch ms:
0-based month with rollover, day offset from the 1st, two-digit years mapped
into the 1900s (the documented `Date` quirk). -/
def dateUTC (y0 mo d h mi s : Int) : Int :=
  let y := if 0 <= y0 && y0 <= 99 then y0 + 1900 else y0
  let ym := y + mo.fdiv 12
  let mm := mo.emod 12
  (daysFromCivil ym (mm + 1) 1 + (d - 1)) * 86400000
    + h * 3600000 + mi * 60000 + s * 1000

/-- The numeric fields `Intl.DateTimeFormat(...).formatToParts` delivers. -/
structure DateParts where
  year : Int
  month : Int
  day : Int
  hour : Int
  minute : Int
  second : Int
deriving DecidableEq, Repr

/-- Re-encode formatter parts exactly as part_006 line 274 does
(`Date.UTC(parts.year, parts.month - 1, parts.day, h, parts.minute, parts.second)`),
without the hour-24 adjustment. -/
def partsToUTC (p : DateParts) : Int :=
  dateUTC p.year (p.month - 1) p.day p.hour p.minute p.second

/-- `localToUTC` from part_006 lines 261–277.  The timezone database behind
`Intl.DateTimeFormat` is embedded as the oracle `tzFmt`: for an instant `t`,
`tzFmt t` is the wall-clock sextuple the target zone displays for `t`. -/
def localToUTC (year month day hour minute second : Int)
    (tzFmt : Int → DateParts) : Int :=
  let fakeUTC := dateUTC year month day hour minute second
  let parts := tzFmt fakeUTC
  let h := if parts.hour == 24 then 0 else parts.hour
  let localViewUTC := dateUTC parts.year (parts.month - 1) parts.day h parts.minute parts.second
  let offset := fakeUTC - localViewUTC
  fakeUTC + offset

/-- Reference decomposition of an instant into its UTC calendar fields; used
to build concrete fixed-offset formatter oracles in witnesses. -/
def utcDateParts (t : Int) : DateParts :=
  let days := t.fdiv 86400000
  let rem := t - days * 86400000
  let ymd := civilFromDays days
  { year := ymd.1, month := ymd.2.1, day := ymd.2.2,
    hour := rem.ediv 3600000, minute := (rem.ediv 60000).emod 60,
    second := (rem.ediv 1000).emod 60 }

/-- Two-digit zero padding for date strings. -/
def pad2 (n : Int) : String :=
  if n < 10 then "0" ++ toString n else toString n

/-- The `YYYY-MM-DD` prefix of `Date.prototype.toISOString` (part_006 line 319,
`utcDate.toISOString().slice(0, 10)`); years in the logs are four-digit. -/
def dateKey (ms : Int) : String :=
  let ymd := civilFromDays (ms.fdiv 86400000)
  toString ymd.1 ++ "-" ++ pad2 ymd.2.1 ++ "-" ++ pad2 ymd.2.2

/-! ## Auto-parse configuration (part_006 lines 229–293) -/

def RAID_UTC_DAYS : List Int := [0, 3, 5, 6]
def RAID_UTC_START : Int := 13
def RAID_UTC_END : Int := 17

def APPROVED_ZONES : List String :=
  [ "Plane of Fear", "Plane of Hate", "Sebilis", "Katta Castellum",
    "Kedge Keep", "Nagafen's Lair", "Permafrost", "Veeshan's Peak",
    "Timorous Deep", "Dreadlands", "Chardok", "Dragon Necropolis",
    "Kael Drakkel", "Temple of Veeshan", "Thurgadin", "Akheva Ruins",
    "Greig's End", "Acrylia Caverns", "Ssraeshza Temple", "Umbral Plains",
    "Vex Thal", "The Deep" ]

def APPROVED_ZONE_FILTERS : List String := APPROVED_ZONES.map normalizeZone

def isApprovedZone (zoneName : Option String) : Bool :=
  match zoneName with
  | none => false
  | some z => !(z == "") && zoneMatchesFilters (some z) APPROVED_ZONE_FILTERS

/-- `isInRaidWindow` from part_006 lines 287–291: UTC weekday in the raid-day
set and UTC hour in the half-open raid window. -/
def isInRaidWindow (utc : Int) : Bool :=
  let h := getUTCHours utc
  RAID_UTC_DAYS.contains (getUTCDay utc) && RAID_UTC_START <= h && h < RAID_UTC_END

def DAY_NAMES : List String :=
  ["Sunday", "Monday", "Tuesday", "Wednesday", "Thursday", "Friday", "Saturday"]

/-! ## Auto-parse scan (part_006 lines 308–441) -/

/-- One per-date session bucket of `autoParseLog`. -/
structure Session where
  date : String
  dayName : String
  attendanceMap : List (String × AttRecord)
  loot : List Loot
  zones : List String
  firstSeen : Int
  lastSeen : Int
deriving DecidableEq, Repr

/-- JS `Set.prototype.add` on an insertion-ordered list. -/
def addZone (zs : List String) (z : String) : List String :=
  if zs.contains z then zs else zs ++ [z]

/-- The fresh bucket `getSession` creates on first access of a date
(part_006 lines 321–329). -/
def newSession (utc : Int) : Session :=
  { date := dateKey utc,
    dayName := DAY_NAMES.getD (getUTCDay utc).toNat "",
    attendanceMap := [], loot := [], zones := [],
    firstSeen := utc, lastSeen := utc }

/-- `getSession` of part_006 lines 318–334: create the bucket for the
instant's UTC date on first access, then push `lastSeen` outward. -/
def getSessionMap (smap : List (String × Session)) (utc : Int) :
    List (String × Session) :=
  let key := dateKey utc
  let smap' :=
    if (lookupKey smap key).isSome then smap
    else smap ++ [(key, newSession utc)]
  smap'.map (fun kv =>
    if kv.1 == key then
      (kv.1, if utc > kv.2.lastSeen then { kv.2 with lastSeen := utc } else kv.2)
    else kv)

/-- Apply the in-place mutation of the current session bucket. -/
def updateSession (smap : List (String × Session)) (key : String)
    (f : Session → Session) : List (String × Session) :=
  smap.map (fun kv => if kv.1 == key then (kv.1, f kv.2) else kv)

/-- Scanner state of `autoParseLog`. -/
structure AutoState where
  currentZone : Option String
  inWhoBlock : Bool
  whoBlockUTC : Int
  whoPlayers : List Player
  sessionMap : List (String × Session)
deriving DecidableEq, Repr

def initAutoState : AutoState :=
  { currentZone := none, inWhoBlock := false, whoBlockUTC := 0,
    whoPlayers := [], sessionMap := [] }

/-- One iteration of the `autoParseLog` loop (part_006 lines 339–424).
Note the loot branch: once the raid-window and approved-zone gates pass, the
session bucket is fetched and the current zone added to it before either loot
regex is tried, so even an unrecognized in-gate line touches the bucket. -/
def autoStep (characterName : Option String) (st : AutoState) (l : Line) : AutoState :=
  match l with
  | .junk => st
  | .entry ts content =>
    match content with
    | .zoneEntry z => { st with currentZone := some z, inWhoBlock := false }
    | .whoStart =>
        if isInRaidWindow ts then
          { st with inWhoBlock := true, whoBlockUTC := ts, whoPlayers := [] }
        else st
    | c =>
      if st.inWhoBlock then
        match c with
        | .whoSeparator => st
        | .whoFooter whoZone =>
            let st' := { st with inWhoBlock := false }
            if isApprovedZone (some whoZone) && isInRaidWindow st'.whoBlockUTC then
              let smap := getSessionMap st'.sessionMap st'.whoBlockUTC
              let key := dateKey st'.whoBlockUTC
              { st' with sessionMap :=
                  updateSession smap key (fun s =>
                    { s with zones := addZone s.zones whoZone,
                             attendanceMap := flushWho s.attendanceMap st'.whoBlockUTC st'.whoPlayers }) }
            else st'
        | .whoPlayer p => { st with whoPlayers := st.whoPlayers ++ [p] }
        | _ => st
      else
        if !(isInRaidWindow ts) || !(isApprovedZone st.currentZone) then st
        else
          match st.currentZone with
          | none => st
          | some cz =>
            let smap := getSessionMap st.sessionMap ts
            let key := dateKey ts
            let smap := updateSession smap key (fun s => { s with zones := addZone s.zones cz })
            match c with
            | .selfLoot item =>
                match characterName with
                | some cn =>
                    { st with sessionMap :=
                        updateSession smap key (fun s =>
                          { s with loot := s.loot ++
                              [{ playerName := some cn, itemName := item,
                                 timestamp := ts, zone := some cz }] }) }
                | none => { st with sessionMap := smap }
            | .otherLoot pl item =>
                { st with sessionMap :=
                    updateSession smap key (fun s =>
                      { s with loot := s.loot ++
                          [{ playerName := some pl, itemName := item,
                             timestamp := ts, zone := some cz }] }) }
            | _ => { st with sessionMap := smap }

/-- Output shape of one detected raid session. -/
structure SessionOut where
  date : String
  dayName : String
  zones : List String
  attendance : List AttRecord
  loot : List Loot
  firstSeen : Int
  lastSeen : Int
deriving DecidableEq, Repr

/-- Lexicographic comparison on char lists by code point; this is what
`a.date.localeCompare(b.date)` computes on the all-ASCII `YYYY-MM-DD` keys. -/
def lexLe : List Char → List Char → Bool
  | [], _ => true
  | _ :: _, [] => false
  | a :: as, b :: bs =>
      if a.toNat < b.toNat then true
      else if b.toNat < a.toNat then false
      else lexLe as bs

def dateLe (a b : SessionOut) : Bool := lexLe a.date.data b.date.data

/-- Sorted insertion, the building block of the comparison sort below. -/
def insertSorted {α : Type} (le : α → α → Bool) (x : α) : List α → List α
  | [] => [x]
  | y :: ys => if le x y then x :: y :: ys else y :: insertSorted le x ys

/-- Model of JS `Array.prototype.sort(comparator)`: some comparison sort whose
output is ordered by the comparator (the date keys being sorted are pairwise
distinct, so which comparison sort is immaterial). -/
def sortByLe {α : Type} (le : α → α → Bool) (l : List α) : List α :=
  l.foldr (insertSorted le) []

/-- The flatten/filter/sort pipeline of part_006 lines 427–438. -/
def autoFinalize (smap : List (String × Session)) : List SessionOut :=
  sortByLe dateLe
    ((smap.map (fun kv => kv.2)).filter
        (fun s => s.attendanceMap.length > 0 || s.loot.length > 0)
      |>.map (fun s =>
        { date := s.date, dayName := s.dayName, zones := s.zones,
          attendance := s.attendanceMap.map (fun kv => kv.2), loot := s.loot,
          firstSeen := s.firstSeen, lastSeen := s.lastSeen }))

/-- Result shape of `autoParseLog`. -/
structure AutoResult where
  sessions : List SessionOut
  lineCount : Nat
deriving DecidableEq, Repr

def autoParseLog (characterName : Option String) (ls : List Line) : AutoResult :=
  let st := ls.foldl (autoStep characterName) initAutoState
  { sessions := autoFinalize st.sessionMap, lineCount := ls.length }

/-! ## Live watcher (log-watcher.js) -/

/-- Constructor-time configuration of `LogWatcher` (lines 26–48), after the
`(approvedZones || []).map(normalizeZone)` pre-normalization and the
`raidDays`/`raidStartUTC`/`raidEndUTC` defaulting. -/
structure WatcherCfg where
  characterName : Option String
  approvedZoneFilters : List String
  raidDays : List Int
  raidStartUTC : Int
  raidEndUTC : Int
deriving Repr

def defaultWatcherCfg (characterName : Option String) (approvedZones : List String) : WatcherCfg :=
  { characterName := characterName,
    approvedZoneFilters := approvedZones.map normalizeZone,
    raidDays := [0, 3, 5, 6], raidStartUTC := 13, raidEndUTC := 17 }

/-- `LogWatcher._isInRaidWindow` (lines 50–54). -/
def watcherInRaidWindow (cfg : WatcherCfg) (utc : Int) : Bool :=
  let h := getUTCHours utc
  cfg.raidDays.contains (getUTCDay utc) && cfg.raidStartUTC <= h && h < cfg.raidEndUTC

/-- `LogWatcher._isApprovedZone` (lines 56–58). -/
def watcherApprovedZone (cfg : WatcherCfg) (zoneName : Option String) : Bool :=
  match zoneName with
  | none => false
  | some z => !(z == "") && zoneMatchesFilters (some z) cfg.approvedZoneFilters

/-- Mutable scanner state of one `LogWatcher` (lines 33–40), omitting the
byte offset and debounce timer, which never touch parsing. -/
structure WatchState where
  currentZone : Option String
  inWhoBlock : Bool
  whoBlockUTC : Int
  whoPlayers : List Player
  attendanceMap : List (String × AttRecord)
  lootEvents : List Loot
  zones : List String
deriving DecidableEq, Repr

def initWatchState : WatchState :=
  { currentZone := none, inWhoBlock := false, whoBlockUTC := 0,
    whoPlayers := [], attendanceMap := [], lootEvents := [], zones := [] }

/-- The upsert of `_processLine` lines 150–159: fresh keys are inserted with
both bounds at the block instant; on an existing key only `lastSeen` is pushed
outward — `firstSeen` is never revisited. -/
def upsertWatch (m : List (String × AttRecord)) (t : Int) (p : Player) :
    List (String × AttRecord) :=
  let key := lowerStr p.name
  match lookupKey m key with
  | none =>
      m ++ [(key, { name := p.name, level := p.level, cls := p.cls,
                    race := p.race, guild := p.guild,
                    firstSeen := t, lastSeen := t })]
  | some _ =>
      m.map (fun kv =>
        if kv.1 == key then
          (kv.1, if t > kv.2.lastSeen then { kv.2 with lastSeen := t } else kv.2)
        else kv)

def flushWatch (m : List (String × AttRecord)) (t : Int) (ps : List Player) :
    List (String × AttRecord) :=
  ps.foldl (fun m p => upsertWatch m t p) m

/-- `LogWatcher._processLine` (lines 110–215).  Event emission is a side
channel and is not part of the state. -/
def processLine (cfg : WatcherCfg) (st : WatchState) (l : Line) : WatchState :=
  match l with
  | .junk => st
  | .entry ts content =>
    match content with
    | .zoneEntry z =>
        { st with currentZone := some z, zones := addZone st.zones z, inWhoBlock := false }
    | .whoStart =>
        if watcherInRaidWindow cfg ts then
          { st with inWhoBlock := true, whoBlockUTC := ts, whoPlayers := [] }
        else st
    | c =>
      if st.inWhoBlock then
        match c with
        | .whoSeparator => st
        | .whoFooter whoZone =>
            let st' := { st with inWhoBlock := false }
            if watcherApprovedZone cfg (some whoZone) then
              { st' with attendanceMap := flushWatch st'.attendanceMap st'.whoBlockUTC st'.whoPlayers }
            else st'
        | .whoPlayer p => { st with whoPlayers := st.whoPlayers ++ [p] }
        | _ => st
      else
        if !(watcherInRaidWindow cfg ts) || !(watcherApprovedZone cfg st.currentZone) then st
        else
          match c, cfg.characterName with
          | .selfLoot item, some cn =>
              { st with lootEvents := st.lootEvents ++
                  [{ playerName := some cn, itemName := item,
                     timestamp := ts, zone := st.currentZone }] }
          | .otherLoot pl item, _ =>
              { st with lootEvents := st.lootEvents ++
                  [{ playerName := some pl, itemName := item,
                     timestamp := ts, zone := st.currentZone }] }
          | _, _ => st

def processLines (cfg : WatcherCfg) (st : WatchState) (ls : List Line) : WatchState :=
  ls.foldl (processLine cfg) st

/-- Block-start invariant of the live watcher: an open roster block was opened
inside the raid window.  `inWhoBlock := true` is written only at
log-watcher.js line 131, guarded by `_isInRaidWindow`, and `whoBlockUTC` is
written nowhere else, so every state reachable from the initial one satisfies
this; it is what carries the window guarantee to the footer flush of line 148,
which itself re-checks only the zone. -/
def watchWindowInv (cfg : WatcherCfg) (st : WatchState) : Prop :=
  st.inWhoBlock = true → watcherInRaidWindow cfg st.whoBlockUTC = true

/-! ## Chunk reassembly of `LogWatcher._readNew` (lines 99–107) -/

/-- Split on `/\r?\n/` exactly as `text.split(/\r?\n/)`: a newline always ends
a piece, and one carriage return immediately before it belongs to the
separator; a lone carriage return is ordinary text. -/
def splitCRLF : List Char → List (List Char)
  | [] => [[]]
  | '\r' :: '\n' :: rest => [] :: splitCRLF rest
  | '\n' :: rest => [] :: splitCRLF rest
  | c :: rest =>
      match splitCRLF rest with
      | [] => [[c]]
      | l :: ls => (c :: l) :: ls

/-- Carry-over buffer of the tail driver: the pending partial line
(`this.pendingChunk`) and the complete lines handed to `_processLine` so far. -/
structure TailBuf where
  pending : List Char
  emitted : List (List Char)
deriving DecidableEq, Repr

def initTailBuf : TailBuf := { pending := [], emitted := [] }

/-- One `_readNew` text step: prepend the pending partial line, split, keep
the final piece (`lines.pop() || ''`) as the new pending text and emit the
rest in order. -/
def readChunk (tb : TailBuf) (chunk : List Char) : TailBuf :=
  let lines := splitCRLF (tb.pending ++ chunk)
  { pending := lines.getLastD [], emitted := tb.emitted ++ lines.dropLast }

def readChunks (tb : TailBuf) (chunks : List (List Char)) : TailBuf :=
  chunks.foldl readChunk tb

/-! ## Statement-level helper definitions -/

/-- Zone normalization written from the words of the specification claim:
"normalize(name) = lowercase(trim(name)) with a single leading `the ` (one
literal space) stripped" — trimming happens first here, unlike the source. -/
def normalizeZoneSpec (name : String) : String :=
  let s := String.mk ((trimChars name.data).map Char.toLower)
  if isPrefixChars "the ".data s.data then String.mk (s.data.drop 4) else s

/-- The matching relation written from the words of the specification claim:
some filter is a substring of the spec-normalized zone name or vice versa;
empty filter set or empty zone name never match. -/
def zoneMatchesSpec (zoneName : String) (filters : List String) : Bool :=
  if zoneName == "" || filters.isEmpty then false
  else
    let norm := normalizeZoneSpec zoneName
    filters.any (fun f => jsIncludes norm f || jsIncludes f norm)

/-- A sequence of aggregator upserts (one flushed sighting each). -/
def upsertSeq (m : List (String × AttRecord)) (ss : List (Int × Player)) :
    List (String × AttRecord) :=
  ss.foldl (fun m tp => upsertAttendance m tp.1 tp.2) m

/-- Attendance content of the session bucket `k` (empty when absent). -/
def sessionAtt (smap : List (String × Session)) (k : String) :
    List (String × AttRecord) :=
  ((lookupKey smap k).map (fun s => s.attendanceMap)).getD []

/-- Loot content of the session bucket `k` (empty when absent). -/
def sessionLoot (smap : List (String × Session)) (k : String) : List Loot :=
  ((lookupKey smap k).map (fun s => s.loot)).getD []

/-- Whether an instant passes the batch time-window gate of parser.js line 122. -/
def inBatchWindow (cfg : BatchCfg) (ts : Int) : Bool :=
  !(ts < cfg.startTime || ts > cfg.endTime)

/-- Lines that cannot end, abort or restart an open roster block: junk lines,
out-of-window lines, and in-window lines whose content is neither a zone
entry, a block start nor a block footer. -/
def blockNeutral (cfg : BatchCfg) (l : Line) : Bool :=
  match l with
  | .junk => true
  | .entry ts c =>
    if !(inBatchWindow cfg ts) then true
    else
      match c with
      | .zoneEntry _ => false
      | .whoStart => false
      | .whoFooter _ => false
      | _ => true

/-- Chunk text free of line terminators (no newline, no carriage return). -/
def noTerminator (cs : List Char) : Bool :=
  cs.all (fun c => !(c == '\n') && !(c == '\r'))

/-! ## Concrete inputs used by counterexamples and witnesses.
The instants are on Sunday 1970-01-04 (epoch day 3): 306000000 is 13:00 UTC
and 309600000 is 14:00 UTC, both inside the default raid window. -/

def lyriFirst : Player :=
  { name := "Lyri", level := some 50, cls := some "Bard",
    race := some "Human", guild := some "Guardians" }

def lyriSecond : Player :=
  { name := "LYRI", level := some 60, cls := none, race := none, guild := none }

/-- Two flushed roster blocks naming the same participant with different
descriptive fields (second sighting has newer, partly null fields). -/
def repeatSightingLines : List Line :=
  [ .entry 100 .whoStart,
    .entry 100 (.whoPlayer lyriFirst),
    .entry 100 (.whoFooter "Fungus Grove"),
    .entry 200 .whoStart,
    .entry 200 (.whoPlayer lyriSecond),
    .entry 200 (.whoFooter "Fungus Grove") ]

/-- Live-watcher input: a later roster block carrying an earlier instant
(14:00 block first, then a 13:00 block), both in approved zone and window. -/
def outOfOrderBlockLines : List Line :=
  [ .entry 309600000 .whoStart,
    .entry 309600000 (.whoPlayer lyriFirst),
    .entry 309600000 (.whoFooter "Sebilis"),
    .entry 306000000 .whoStart,
    .entry 306000000 (.whoPlayer lyriFirst),
    .entry 306000000 (.whoFooter "Sebilis") ]

def sebilisWatcherCfg : WatcherCfg := defaultWatcherCfg none ["Sebilis"]

/-- Watcher state with an open roster block started Sunday 14:00 UTC (inside
the default raid window) holding one buffered player. -/
def openBlockWatchState : WatchState :=
  { currentZone := some "Sebilis", inWhoBlock := true, whoBlockUTC := 309600000,
    whoPlayers := [lyriFirst], attendanceMap := [], lootEvents := [],
    zones := ["Sebilis"] }

/-- Auto-mode input whose session survives via a roster flush, followed by a
zone change and a self-loot line while no character name is configured. -/
def autoSelfLootBase : List Line :=
  [ .entry 306000000 (.zoneEntry "Sebilis"),
    .entry 306000000 .whoStart,
    .entry 306000000 (.whoPlayer lyriFirst),
    .entry 306000000 (.whoFooter "Sebilis"),
    .entry 309500000 (.zoneEntry "Chardok") ]

def autoSelfLootLines : List Line :=
  autoSelfLootBase ++ [ .entry 309600000 (.selfLoot "Orb of Mastery") ]

/-! ## Theorems -/

theorem lookupKey_nil {α : Type} (k : String) : lookupKey ([] : List (String × α)) k = none := rfl

theorem lookupKey_cons {α : Type} (k0 : String) (v : α) (m : List (String × α)) (k : String) :
    lookupKey ((k0, v) :: m) k = if k0 == k then some v else lookupKey m k := by
  by_cases h : k0 == k <;> simp [lookupKey, List.find?, h]

theorem lookupKey_append {α : Type} (m1 m2 : List (String × α)) (k : String) :
    lookupKey (m1 ++ m2) k
      = match lookupKey m1 k with
        | some v => some v
        | none => lookupKey m2 k := by
  induction m1 with
  | nil => simp [lookupKey]
  | cons kv m1 ih =>
      rcases kv with ⟨k0, v⟩
      by_cases h : k0 == k
      · simp [lookupKey_cons, h]
      · simp [lookupKey_cons, h]
        exact ih

theorem lookupKey_update {α : Type} (m : List (String × α)) (key : String)
    (g : α → α) (k : String) :
    lookupKey (m.map (fun kv => if kv.1 == key then (kv.1, g kv.2) else kv)) k
      = if k == key then (lookupKey m k).map g else lookupKey m k := by
  induction m with
  | nil => by_cases h : k = key <;> simp [lookupKey, h]
  | cons kv m ih =>
      rcases kv with ⟨k0, v⟩
      simp only [List.map_cons, beq_iff_eq] at ih ⊢
      by_cases h1 : k0 = key
      · subst h1
        by_cases h2 : k0 = k
        · subst h2
          simp [lookupKey_cons]
        · have hkk : ¬ (k = k0) := fun hh => h2 hh.symm
          simp [lookupKey_cons, h2, hkk, ih]
      · by_cases h2 : k0 = k
        · subst h2
          simp [lookupKey_cons, h1]
        · simp [lookupKey_cons, h1, h2, ih]

/-- C9: in batch `parseLog` the time-window filter precedes classification —
a line whose instant is strictly before `startTime` or strictly after
`endTime` leaves the whole scanner state unchanged, and deleting it from the
input changes nothing. -/
theorem c9_out_of_window_line_inert (cfg : BatchCfg) (st : ScanState) (ts : Int)
    (c : Content) (ls : List Line)
    (h : ts < cfg.startTime ∨ ts > cfg.endTime) :
    parseLogStep cfg st (.entry ts c) = st ∧
    parseLogScan cfg st (.entry ts c :: ls) = parseLogScan cfg st ls := by
  have hcond : (ts < cfg.startTime || ts > cfg.endTime) = true := by
    rcases h with h | h <;> simp [h]
  have h1 : parseLogStep cfg st (.entry ts c) = st := by
    simp only [parseLogStep, hcond, if_true]
  exact ⟨h1, by simp [parseLogScan, h1]⟩

theorem c9_witness :
    parseLogStep { startTime := 0, endTime := 10, zoneFilters := ["sebilis"], characterName := none }
        initScanState (.entry 20 (.zoneEntry "Chardok")) = initScanState ∧
    parseLogScan { startTime := 0, endTime := 10, zoneFilters := ["sebilis"], characterName := none }
        initScanState [.entry 20 (.zoneEntry "Chardok")]
      = parseLogScan { startTime := 0, endTime := 10, zoneFilters := ["sebilis"], characterName := none }
        initScanState [] :=
  c9_out_of_window_line_inert _ initScanState 20 (.zoneEntry "Chardok") []
    (Or.inr (by decide))

/-- C1 is false on the code: after a second sighting of the same participant
(same case-insensitive key) with new descriptive values, the stored record
still carries the first sighting's level/class/race/guild — the upsert of
parser.js lines 153–166 never writes those fields on the repeat path. -/
theorem c1_counterexample :
    (parseLog 0 1000 ["fungus"] none repeatSightingLines).attendance
      = [{ name := "Lyri", level := some 50, cls := some "Bard", race := some "Human",
           guild := some "Guardians", firstSeen := 100, lastSeen := 200 }] ∧
    (parseLog 0 1000 ["fungus"] none repeatSightingLines).attendance.map
        (fun r => (r.level, r.cls, r.race, r.guild))
      ≠ [(some 60, none, none, none)] := by decide

/-- C1 (amended): on a repeat sighting under the same case-insensitive key,
the upsert widens `firstSeen`/`lastSeen` to `min`/`max` but leaves every
descriptive field (name, level, class, race, guild) exactly as stored by the
first sighting; records under other keys are untouched. -/
theorem c1_descriptive_fields_kept (m : List (String × AttRecord)) (t : Int)
    (p : Player) (r : AttRecord)
    (h : lookupKey m (lowerStr p.name) = some r) :
    lookupKey (upsertAttendance m t p) (lowerStr p.name)
      = some { r with firstSeen := min t r.firstSeen, lastSeen := max t r.lastSeen } ∧
    ∀ k, ¬ (k = lowerStr p.name) → lookupKey (upsertAttendance m t p) k = lookupKey m k := by
  have hfs : (if t < r.firstSeen then t else r.firstSeen) = min t r.firstSeen := by
    by_cases hh : t < r.firstSeen <;> simp [min_def, hh] <;> omega
  have hls : (if t > r.lastSeen then t else r.lastSeen) = max t r.lastSeen := by
    by_cases hh : t > r.lastSeen <;> simp [max_def, hh] <;> omega
  have hu := fun k => lookupKey_update m (lowerStr p.name)
      (fun v => { v with firstSeen := if t < v.firstSeen then t else v.firstSeen,
                         lastSeen := if t > v.lastSeen then t else v.lastSeen }) k
  constructor
  · simp only [upsertAttendance, h]
    rw [hu (lowerStr p.name)]
    simp [h, hfs, hls]
  · intro k hk
    simp only [upsertAttendance, h]
    rw [hu k]
    simp [hk]

theorem c1_witness :
    lookupKey
        (upsertAttendance [(lowerStr "Lyri",
          { name := "Lyri", level := some 50, cls := some "Bard", race := some "Human",
            guild := some "Guardians", firstSeen := 100, lastSeen := 100 })] 200 lyriSecond)
        (lowerStr lyriSecond.name)
      = some { name := "Lyri", level := some 50, cls := some "Bard", race := some "Human",
               guild := some "Guardians", firstSeen := min 200 100, lastSeen := max 200 100 } :=
  (c1_descriptive_fields_kept
    [(lowerStr "Lyri",
      { name := "Lyri", level := some 50, cls := some "Bard", race := some "Human",
        guild := some "Guardians", firstSeen := 100, lastSeen := 100 })]
    200 lyriSecond
    { name := "Lyri", level := some 50, cls := some "Bard", race := some "Human",
      guild := some "Guardians", firstSeen := 100, lastSeen := 100 }
    (by decide)).1

/-- C5 is false on the code for zone names with leading whitespace: the source
lowercases and strips the leading "the" before trimming, so a leading blank
protects the "the"; the claim trims first.  At zone " The Deep" with filter
"he de" the source normalization yields "the deep" (which contains "he de")
while the claimed normalization yields "deep" (unrelated to "he de"). -/
theorem c5_counterexample :
    zoneMatchesFiltersS " The Deep" ["he de"] = true ∧
    zoneMatchesSpec " The Deep" ["he de"] = false ∧
    normalizeZone " The Deep" = "the deep" ∧
    normalizeZoneSpec " The Deep" = "deep" := by decide

/-- C5 (amended): `matches(zoneName, filterSet)` is true iff the filter set
and the zone name are nonempty and some filter string is a substring of the
normalized zone name or vice versa, where the normalization lowercases,
strips one leading "the"+whitespace run from the very start of the lowercased
(untrimmed) text, and only then trims; an empty filter set, a missing zone or
an empty zone name never match, and the three example matches hold with the
caller-side filter normalization of parser.js line 89. -/
theorem c5_bidirectional_matching :
    (∀ z fs, zoneMatchesFiltersS z fs = true ↔
       (¬ (z = "") ∧ ¬ (fs = []) ∧ ∃ f ∈ fs,
          jsIncludes (normalizeZone z) f = true ∨ jsIncludes f (normalizeZone z) = true)) ∧
    (∀ fs, zoneMatchesFilters none fs = false) ∧
    (∀ z, zoneMatchesFiltersS z [] = false) ∧
    (∀ fs, zoneMatchesFiltersS "" fs = false) ∧
    zoneMatchesFiltersS "Fungus Grove" (["fungus"].map normalizeZone) = true ∧
    zoneMatchesFiltersS "fungus" (["Fungus Grove"].map normalizeZone) = true ∧
    zoneMatchesFiltersS "The Deep" (["deep"].map normalizeZone) = true := by
  refine ⟨?_, ?_, ?_, ?_, by decide, by decide, by decide⟩
  · intro z fs
    by_cases hz : z = ""
    · subst hz; simp [zoneMatchesFiltersS]
    · by_cases hfs : fs = []
      · subst hfs; simp [zoneMatchesFiltersS]
      · have hne : fs.isEmpty = false := by
          cases fs with
          | nil => exact absurd rfl hfs
          | cons a l => rfl
        simp [zoneMatchesFiltersS, hz, hfs, hne, List.any_eq_true]
  · intro fs; rfl
  · intro z; simp [zoneMatchesFiltersS]
  · intro fs; simp [zoneMatchesFiltersS]

theorem c5_witness :
    zoneMatchesFiltersS "Fungus Grove" ["fungus"] = true ∧
    ¬ ("Fungus Grove" = "") ∧ ¬ ((["fungus"] : List String) = []) ∧
    ∃ f ∈ (["fungus"] : List String),
      jsIncludes (normalizeZone "Fungus Grove") f = true ∨
      jsIncludes f (normalizeZone "Fungus Grove") = true := by
  refine ⟨by decide, ?_⟩
  exact (c5_bidirectional_matching.1 "Fungus Grove" ["fungus"]).mp (by decide)

theorem lookupKey_updateSession (smap : List (String × Session)) (key : String)
    (f : Session → Session) (k : String) :
    lookupKey (updateSession smap key f) k
      = if k == key then (lookupKey smap k).map f else lookupKey smap k :=
  lookupKey_update smap key f k

theorem sessionLoot_updateSession (smap : List (String × Session)) (key k : String)
    (f : Session → Session) (hf : ∀ s, (f s).loot = s.loot) :
    sessionLoot (updateSession smap key f) k = sessionLoot smap k := by
  unfold sessionLoot
  rw [lookupKey_updateSession]
  by_cases hk : k = key
  · rcases hmem : lookupKey smap k with _ | s <;> simp [hk, hmem, hf]
  · simp [hk]

theorem sessionAtt_updateSession (smap : List (String × Session)) (key k : String)
    (f : Session → Session) (hf : ∀ s, (f s).attendanceMap = s.attendanceMap) :
    sessionAtt (updateSession smap key f) k = sessionAtt smap k := by
  unfold sessionAtt
  rw [lookupKey_updateSession]
  by_cases hk : k = key
  · rcases hmem : lookupKey smap k with _ | s <;> simp [hk, hmem, hf]
  · simp [hk]

theorem sessionLoot_getSessionMap (smap : List (String × Session)) (utc : Int) (k : String) :
    sessionLoot (getSessionMap smap utc) k = sessionLoot smap k := by
  unfold sessionLoot getSessionMap
  have hu := fun (m : List (String × Session)) =>
    lookupKey_update m (dateKey utc)
      (fun s => if utc > s.lastSeen then { s with lastSeen := utc } else s) k
  cases habs : (lookupKey smap (dateKey utc)).isSome with
  | true =>
      simp only [habs, if_true]
      rw [hu smap]
      by_cases hk : k = dateKey utc
      · rcases hmem : lookupKey smap k with _ | s
        · simp [hk, hmem]
        · by_cases hb : utc > s.lastSeen <;> simp [hk, hmem, hb]
      · simp [hk]
  | false =>
      simp only [habs]
      rw [if_neg Bool.false_ne_true]
      rw [hu (smap ++ [(dateKey utc, newSession utc)])]
      have hnone : lookupKey smap (dateKey utc) = none := by
        rcases hx : lookupKey smap (dateKey utc) with _ | v
        · rfl
        · rw [hx] at habs; simp at habs
      by_cases hk : k = dateKey utc
      · subst hk
        rw [lookupKey_append, hnone]
        simp [lookupKey_cons, hnone, newSession]
      · have hkk : ¬ ((dateKey utc) = k) := fun hh => hk hh.symm
        rw [lookupKey_append]
        rcases hx : lookupKey smap k with _ | v
        · simp [hx, lookupKey_cons, hkk, hk, lookupKey_nil]
        · simp [hx, hk]

theorem sessionAtt_getSessionMap (smap : List (String × Session)) (utc : Int) (k : String) :
    sessionAtt (getSessionMap smap utc) k = sessionAtt smap k := by
  unfold sessionAtt getSessionMap
  have hu := fun (m : List (String × Session)) =>
    lookupKey_update m (dateKey utc)
      (fun s => if utc > s.lastSeen then { s with lastSeen := utc } else s) k
  cases habs : (lookupKey smap (dateKey utc)).isSome with
  | true =>
      simp only [habs, if_true]
      rw [hu smap]
      by_cases hk : k = dateKey utc
      · rcases hmem : lookupKey smap k with _ | s
        · simp [hk, hmem]
        · by_cases hb : utc > s.lastSeen <;> simp [hk, hmem, hb]
      · simp [hk]
  | false =>
      simp only [habs]
      rw [if_neg Bool.false_ne_true]
      rw [hu (smap ++ [(dateKey utc, newSession utc)])]
      have hnone : lookupKey smap (dateKey utc) = none := by
        rcases hx : lookupKey smap (dateKey utc) with _ | v
        · rfl
        · rw [hx] at habs; simp at habs
      by_cases hk : k = dateKey utc
      · subst hk
        rw [lookupKey_append, hnone]
        simp [lookupKey_cons, hnone, newSession]
      · have hkk : ¬ ((dateKey utc) = k) := fun hh => hk hh.symm
        rw [lookupKey_append]
        rcases hx : lookupKey smap k with _ | v
        · simp [hx, lookupKey_cons, hkk, hk, lookupKey_nil]
        · simp [hx, hk]

/-- C10 is false for `autoParseLog`: with no characterName set, a self-loot
line in a raid window and approved zone is not ignored entirely — it still
creates/updates the session bucket (zones, lastSeen): dropping the line from
the input changes the returned sessions. -/
theorem c10_counterexample :
    ((autoParseLog none autoSelfLootLines).sessions.map (fun s => s.zones))
      = [["Sebilis", "Chardok"]] ∧
    ((autoParseLog none autoSelfLootBase).sessions.map (fun s => s.zones))
      = [["Sebilis"]] ∧
    (autoParseLog none autoSelfLootLines).sessions
      ≠ (autoParseLog none autoSelfLootBase).sessions := by decide

/-- C10 (amended): a self-loot line in a matching zone inside the batch
window always appends a loot event whose playerName equals the supplied
characterName — even a null one, giving a null-named event; the live watcher
leaves its whole state unchanged on a self-loot line when no characterName is
set; `autoParseLog` records no loot event for such a line (at every date key
the session loot list is unchanged), though the bucket itself may still be
created or have its zones/lastSeen touched. -/
theorem c10_self_loot_attribution :
    (∀ (cfg : BatchCfg) (st : ScanState) (ts : Int) (item : String),
       cfg.characterName = none →
       st.inWhoBlock = false →
       inBatchWindow cfg ts = true →
       zoneMatchesFilters st.currentZone cfg.zoneFilters = true →
       (parseLogStep cfg st (.entry ts (.selfLoot item))).lootEvents
         = st.lootEvents ++ [{ playerName := none, itemName := item,
                               timestamp := ts, zone := st.currentZone }]) ∧
    (∀ (cfg : WatcherCfg) (st : WatchState) (ts : Int) (item : String),
       cfg.characterName = none →
       processLine cfg st (.entry ts (.selfLoot item)) = st) ∧
    (∀ (st : AutoState) (ts : Int) (item : String) (k : String),
       sessionLoot (autoStep none st (.entry ts (.selfLoot item))).sessionMap k
         = sessionLoot st.sessionMap k) := by
  refine ⟨?_, ?_, ?_⟩
  · intro cfg st ts item hcn hblock hwin hzone
    have hcond : (ts < cfg.startTime || ts > cfg.endTime) = false := by
      simpa [inBatchWindow] using hwin
    simp [parseLogStep, hcond, hblock, hzone, hcn]
  · intro cfg st ts item hcn
    cases hb : st.inWhoBlock
    · cases hg : (!(watcherInRaidWindow cfg ts) || !(watcherApprovedZone cfg st.currentZone)) <;>
        simp [processLine, hb, hg, hcn]
    · simp [processLine, hb]
  · intro st ts item k
    cases hb : st.inWhoBlock
    · cases hg : (!(isInRaidWindow ts) || !(isApprovedZone st.currentZone))
      · rcases hz : st.currentZone with _ | cz
        · simp [autoStep, hb, hg, hz]
        · rw [hz] at hg
          simp only [autoStep, hb, hg, hz, Bool.false_eq_true, if_false]
          rw [sessionLoot_updateSession (getSessionMap st.sessionMap ts) (dateKey ts) k
                (fun s => { s with zones := addZone s.zones cz }) (fun s => rfl),
              sessionLoot_getSessionMap]
      · simp [autoStep, hb, hg]
    · simp [autoStep, hb]

theorem c10_witness :
    (parseLogStep { startTime := 0, endTime := 1000, zoneFilters := ["sebilis"], characterName := none }
        { currentZone := some "Sebilis", inWhoBlock := false, whoBlockTime := 0,
          whoPlayers := [], attendanceMap := [], lootEvents := [] }
        (.entry 100 (.selfLoot "Orb of Mastery"))).lootEvents
      = [] ++ [{ playerName := none, itemName := "Orb of Mastery",
                 timestamp := 100, zone := some "Sebilis" }] :=
  c10_self_loot_attribution.1
    { startTime := 0, endTime := 1000, zoneFilters := ["sebilis"], characterName := none }
    { currentZone := some "Sebilis", inWhoBlock := false, whoBlockTime := 0,
      whoPlayers := [], attendanceMap := [], lootEvents := [] }
    100 "Orb of Mastery" rfl rfl (by decide) (by decide)

theorem upsertSeq_single_key (k : String) :
    ∀ (rest : List (Int × Player)) (r : AttRecord),
      (∀ tp ∈ rest, lowerStr tp.2.name = k) →
      upsertSeq [(k, r)] rest
        = [(k, { r with firstSeen := (rest.map Prod.fst).foldl min r.firstSeen,
                        lastSeen := (rest.map Prod.fst).foldl max r.lastSeen })] := by
  intro rest
  induction rest with
  | nil => intro r hrest; simp [upsertSeq]
  | cons tp rest ih =>
      intro r hrest
      rcases tp with ⟨t, p⟩
      have hk : lowerStr p.name = k := hrest (t, p) (List.mem_cons_self _ _)
      have hstep : upsertAttendance [(k, r)] t p
          = [(k, { r with firstSeen := min r.firstSeen t, lastSeen := max r.lastSeen t })] := by
        have hfs : (if t < r.firstSeen then t else r.firstSeen) = min r.firstSeen t := by
          rcases le_or_lt r.firstSeen t with hh | hh
          · rw [if_neg (not_lt.mpr hh), min_eq_left hh]
          · rw [if_pos hh, min_eq_right hh.le]
        have hls : (if t > r.lastSeen then t else r.lastSeen) = max r.lastSeen t := by
          rcases le_or_lt t r.lastSeen with hh | hh
          · rw [if_neg (not_lt.mpr hh), max_eq_left hh]
          · rw [if_pos hh, max_eq_right hh.le]
        simp [upsertAttendance, hk, lookupKey_cons, hfs, hls]
      have hrest' : ∀ tp ∈ rest, lowerStr (tp : Int × Player).2.name = k := by
        intro tp htp; exact hrest tp (List.mem_cons_of_mem _ htp)
      calc upsertSeq [(k, r)] ((t, p) :: rest)
          = upsertSeq (upsertAttendance [(k, r)] t p) rest := by simp [upsertSeq]
        _ = upsertSeq [(k, { r with firstSeen := min r.firstSeen t,
                                    lastSeen := max r.lastSeen t })] rest := by rw [hstep]
        _ = _ := by
              rw [ih _ hrest']
              simp

/-- C2 is false for the live watcher: a repeat sighting carrying an earlier
block instant does not move `firstSeen` down — `_processLine` lines 150–159
only push `lastSeen` outward, so after a 14:00 block followed by a 13:00
block the record's span does not cover the 13:00 sighting. -/
theorem c2_counterexample :
    ((processLines sebilisWatcherCfg initWatchState outOfOrderBlockLines).attendanceMap.map
        (fun kv => (kv.2.firstSeen, kv.2.lastSeen)))
      = [(309600000, 309600000)] ∧
    (309600000 : Int) ≠ min 309600000 306000000 := by decide

/-- C2 (amended): one record per case-insensitive key in every variant; in
batch `parseLog` (and `autoParseLog`, which uses the same upsert) a sequence
of same-key sightings collapses to a single record whose `firstSeen` is the
minimum and `lastSeen` the maximum of all sighted instants; the live watcher
only pushes `lastSeen` to the maximum while `firstSeen` keeps the insertion
value, so its span covers all sightings only when block instants never
decrease. -/
theorem c2_first_last_seen_span :
    (∀ (t0 : Int) (p0 : Player) (rest : List (Int × Player)),
       (∀ tp ∈ rest, lowerStr tp.2.name = lowerStr p0.name) →
       ∃ r, upsertSeq [] ((t0, p0) :: rest) = [(lowerStr p0.name, r)] ∧
            r.firstSeen = (rest.map Prod.fst).foldl min t0 ∧
            r.lastSeen = (rest.map Prod.fst).foldl max t0) ∧
    (∀ (m : List (String × AttRecord)) (t : Int) (p : Player) (r : AttRecord),
       lookupKey m (lowerStr p.name) = some r →
       lookupKey (upsertWatch m t p) (lowerStr p.name)
         = some { r with lastSeen := max t r.lastSeen }) := by
  constructor
  · intro t0 p0 rest hrest
    have hfirst : upsertAttendance [] t0 p0
        = [(lowerStr p0.name,
            { name := p0.name, level := p0.level, cls := p0.cls,
              race := p0.race, guild := p0.guild,
              firstSeen := t0, lastSeen := t0 })] := by
      simp [upsertAttendance, lookupKey]
    refine ⟨{ name := p0.name, level := p0.level, cls := p0.cls,
              race := p0.race, guild := p0.guild,
              firstSeen := (rest.map Prod.fst).foldl min t0,
              lastSeen := (rest.map Prod.fst).foldl max t0 }, ?_, rfl, rfl⟩
    calc upsertSeq [] ((t0, p0) :: rest)
        = upsertSeq (upsertAttendance [] t0 p0) rest := by simp [upsertSeq]
      _ = _ := by rw [hfirst, upsertSeq_single_key _ rest _ hrest]
  · intro m t p r h
    have hg : (fun v => if t > v.lastSeen then { v with lastSeen := t } else v) r
        = { r with lastSeen := max t r.lastSeen } := by
      simp only []
      rcases le_or_lt t r.lastSeen with hh | hh
      · rw [if_neg (not_lt.mpr hh), max_eq_right hh]
      · rw [if_pos hh, max_eq_left hh.le]
    have hu := lookupKey_update m (lowerStr p.name)
      (fun v => if t > v.lastSeen then { v with lastSeen := t } else v) (lowerStr p.name)
    simp only [upsertWatch, h]
    rw [hu]
    simp [h, hg]

theorem c2_witness :
    (∃ r, upsertSeq [] ((100, lyriFirst) :: [(200, lyriSecond)]) = [(lowerStr lyriFirst.name, r)] ∧
         r.firstSeen = ([(200, lyriSecond)].map Prod.fst).foldl min 100 ∧
         r.lastSeen = ([(200, lyriSecond)].map Prod.fst).foldl max 100) ∧
    lookupKey
        (upsertWatch [(lowerStr "Lyri",
          { name := "Lyri", level := some 50, cls := some "Bard", race := some "Human",
            guild := some "Guardians", firstSeen := 100, lastSeen := 100 })] 200 lyriSecond)
        (lowerStr lyriSecond.name)
      = some { name := "Lyri", level := some 50, cls := some "Bard", race := some "Human",
               guild := some "Guardians", firstSeen := 100, lastSeen := max 200 100 } :=
  ⟨c2_first_last_seen_span.1 100 lyriFirst [(200, lyriSecond)] (by decide),
   c2_first_last_seen_span.2
     [(lowerStr "Lyri",
       { name := "Lyri", level := some 50, cls := some "Bard", race := some "Human",
         guild := some "Guardians", firstSeen := 100, lastSeen := 100 })]
     200 lyriSecond
     { name := "Lyri", level := some 50, cls := some "Bard", race := some "Human",
       guild := some "Guardians", firstSeen := 100, lastSeen := 100 }
     (by decide)⟩

/-- C4: with the `Intl` formatter embedded as the oracle `tzFmt` (what
wall-clock sextuple the timezone displays for a given instant), `localToUTC`
returns exactly `candidate + offset` with `offset = candidate − observed`,
where `candidate` reads the six fields as if already UTC and `observed` is
the oracle's display of that same instant re-encoded with `Date.UTC` — and
consequently, whenever the oracle displays instants with a fixed shift `off`
(the zone's UTC offset at that instant, which is how gaps/duplicates are
resolved: by whatever single answer the database gives), the result is the
true UTC instant `candidate − off`.  The `hour ≠ 24` hypothesis excludes the
formatter's midnight-as-24 quirk, which the source separately normalizes. -/
theorem c4_localToUTC_bounce (y mo d h mi s : Int) (tzFmt : Int → DateParts) (off : Int)
    (h24 : ¬ ((tzFmt (dateUTC y mo d h mi s)).hour = 24))
    (hobs : partsToUTC (tzFmt (dateUTC y mo d h mi s)) = dateUTC y mo d h mi s + off) :
    localToUTC y mo d h mi s tzFmt
      = dateUTC y mo d h mi s
        + (dateUTC y mo d h mi s - partsToUTC (tzFmt (dateUTC y mo d h mi s))) ∧
    localToUTC y mo d h mi s tzFmt = dateUTC y mo d h mi s - off := by
  have hbeq : ((tzFmt (dateUTC y mo d h mi s)).hour == 24) = false := by
    simp [h24]
  have h1 : localToUTC y mo d h mi s tzFmt
      = dateUTC y mo d h mi s
        + (dateUTC y mo d h mi s - partsToUTC (tzFmt (dateUTC y mo d h mi s))) := by
    simp only [localToUTC, partsToUTC, hbeq, Bool.false_eq_true, if_false]
  refine ⟨h1, ?_⟩
  rw [h1, hobs]
  ring

theorem c4_witness :
    localToUTC 2026 0 22 16 19 28 (fun t => utcDateParts (t - 25200000))
      = dateUTC 2026 0 22 16 19 28 - (-25200000) :=
  (c4_localToUTC_bounce 2026 0 22 16 19 28 (fun t => utcDateParts (t - 25200000)) (-25200000)
    (by decide) (by decide)).2



theorem sessionAtt_lootPipe (smap : List (String × Session)) (ts : Int) (cz : String)
    (k : String) :
    sessionAtt (updateSession (getSessionMap smap ts) (dateKey ts)
        (fun s => { s with zones := addZone s.zones cz })) k = sessionAtt smap k := by
  rw [sessionAtt_updateSession (getSessionMap smap ts) (dateKey ts) k
        (fun s => { s with zones := addZone s.zones cz }) (fun s => rfl),
      sessionAtt_getSessionMap]

theorem sessionAtt_lootPipe2 (smap : List (String × Session)) (ts : Int) (cz : String)
    (e : Loot) (k : String) :
    sessionAtt (updateSession (updateSession (getSessionMap smap ts) (dateKey ts)
        (fun s => { s with zones := addZone s.zones cz })) (dateKey ts)
        (fun s => { s with loot := s.loot ++ [e] })) k = sessionAtt smap k := by
  rw [sessionAtt_updateSession _ (dateKey ts) k
        (fun s => { s with loot := s.loot ++ [e] }) (fun s => rfl)]
  exact sessionAtt_lootPipe smap ts cz k

theorem sessionLoot_footerPipe (smap : List (String × Session)) (t : Int) (wz : String)
    (ps : List Player) (k : String) :
    sessionLoot (updateSession (getSessionMap smap t) (dateKey t)
        (fun s => { s with zones := addZone s.zones wz,
                           attendanceMap := flushWho s.attendanceMap t ps })) k
      = sessionLoot smap k := by
  rw [sessionLoot_updateSession (getSessionMap smap t) (dateKey t) k
        (fun s => { s with zones := addZone s.zones wz,
                           attendanceMap := flushWho s.attendanceMap t ps }) (fun s => rfl),
      sessionLoot_getSessionMap]

theorem autoGate_triple_of_proj (cn : Option String) (st : AutoState) (l : Line)
    (A B : String → Prop) (C : Prop)
    (hsm : (autoStep cn st l).sessionMap = st.sessionMap)
    (hcz : (autoStep cn st l).currentZone = st.currentZone) :
    (∀ k, sessionLoot (autoStep cn st l).sessionMap k ≠ sessionLoot st.sessionMap k → A k) ∧
    (∀ k, sessionAtt (autoStep cn st l).sessionMap k ≠ sessionAtt st.sessionMap k → B k) ∧
    ((autoStep cn st l).currentZone ≠ st.currentZone → C) :=
  ⟨fun k hk => absurd (by rw [hsm]) hk,
   fun k hk => absurd (by rw [hsm]) hk,
   fun hz => absurd hcz hz⟩

/-- Auto-detect half of the gating: any step that changes some session
bucket's loot happened on a classified line whose instant is inside the raid
window with the current zone passing the approved-zone check; any step that
changes a bucket's attendance is a roster footer flushed from an open block
whose footer zone is approved and whose block-start instant is inside the
raid window; and the current zone is only ever set by a zone-entry line. -/
theorem autoStep_gating (cn : Option String) (st : AutoState) (l : Line) :
    (∀ k, sessionLoot (autoStep cn st l).sessionMap k ≠ sessionLoot st.sessionMap k →
       ∃ ts c, l = .entry ts c ∧ isInRaidWindow ts = true ∧ isApprovedZone st.currentZone = true) ∧
    (∀ k, sessionAtt (autoStep cn st l).sessionMap k ≠ sessionAtt st.sessionMap k →
       ∃ ts wz, l = .entry ts (.whoFooter wz) ∧ st.inWhoBlock = true ∧
         isApprovedZone (some wz) = true ∧ isInRaidWindow st.whoBlockUTC = true) ∧
    ((autoStep cn st l).currentZone ≠ st.currentZone →
       ∃ ts z, l = .entry ts (.zoneEntry z) ∧ (autoStep cn st l).currentZone = some z) := by
  rcases l with _ | ⟨ts, c⟩
  · exact autoGate_triple_of_proj cn st Line.junk _ _ _ rfl rfl
  cases c with
  | zoneEntry z =>
      have hstep : autoStep cn st (.entry ts (.zoneEntry z))
          = { st with currentZone := some z, inWhoBlock := false } := rfl
      exact ⟨fun k hk => absurd (by rw [hstep]) hk,
             fun k hk => absurd (by rw [hstep]) hk,
             fun _ => ⟨ts, z, rfl, by rw [hstep]⟩⟩
  | whoStart =>
      refine autoGate_triple_of_proj cn st _ _ _ _ ?_ ?_ <;>
        cases hw : isInRaidWindow ts <;> simp [autoStep, hw]
  | whoFooter wz =>
      cases hb : st.inWhoBlock with
      | true =>
          cases hfg : (isApprovedZone (some wz) && isInRaidWindow st.whoBlockUTC) with
          | false =>
              refine autoGate_triple_of_proj cn st _ _ _ _ ?_ ?_ <;>
                simp [autoStep, hb, hfg]
          | true =>
              have hgates : isApprovedZone (some wz) = true
                  ∧ isInRaidWindow st.whoBlockUTC = true := by simpa using hfg
              have hloot : ∀ k,
                  sessionLoot (autoStep cn st (.entry ts (.whoFooter wz))).sessionMap k
                  = sessionLoot st.sessionMap k := by
                intro k
                simp only [autoStep, hb, hfg, if_true]
                exact sessionLoot_footerPipe st.sessionMap st.whoBlockUTC wz st.whoPlayers k
              have hczP : (autoStep cn st (.entry ts (.whoFooter wz))).currentZone
                  = st.currentZone := by
                simp only [autoStep, hb, hfg, if_true]
              exact ⟨fun k hk => absurd (hloot k) hk,
                     fun k hk => ⟨ts, wz, rfl, rfl, hgates.1, hgates.2⟩,
                     fun hzx => absurd hczP hzx⟩
      | false =>
          cases hgate : (!(isInRaidWindow ts) || !(isApprovedZone st.currentZone)) with
          | true =>
              have hstep : autoStep cn st (.entry ts (.whoFooter wz)) = st := by
                rcases hcz : st.currentZone with _ | cz <;>
                  rw [hcz] at hgate <;> simp [autoStep, hb, hgate, hcz]
              exact autoGate_triple_of_proj cn st _ _ _ _ (by rw [hstep]) (by rw [hstep])
          | false =>
              have hwin : isInRaidWindow ts = true ∧ isApprovedZone st.currentZone = true := by
                simpa using hgate
              have hB : ∀ k,
                  sessionAtt (autoStep cn st (.entry ts (.whoFooter wz))).sessionMap k
                  = sessionAtt st.sessionMap k := by
                intro k
                rcases hcz : st.currentZone with _ | cz <;> rw [hcz] at hgate
                · simp [autoStep, hb, hgate, hcz]
                · simp only [autoStep, hb, hgate, hcz, Bool.false_eq_true, if_false]
                  exact sessionAtt_lootPipe st.sessionMap ts cz k
              have hC : (autoStep cn st (.entry ts (.whoFooter wz))).currentZone
                  = st.currentZone := by
                rcases hcz : st.currentZone with _ | cz <;> rw [hcz] at hgate
                · simp [autoStep, hb, hgate, hcz]
                · simp only [autoStep, hb, hgate, hcz, Bool.false_eq_true, if_false]
              exact ⟨fun k hk => ⟨ts, .whoFooter wz, rfl, hwin.1, hwin.2⟩,
                     fun k hk => absurd (hB k) hk,
                     fun hzx => absurd hC hzx⟩
  | whoSeparator =>
      cases hb : st.inWhoBlock with
      | true =>
          have hstep : autoStep cn st (.entry ts .whoSeparator) = st := by
            simp [autoStep, hb]
          exact autoGate_triple_of_proj cn st _ _ _ _ (by rw [hstep]) (by rw [hstep])
      | false =>
          cases hgate : (!(isInRaidWindow ts) || !(isApprovedZone st.currentZone)) with
          | true =>
              have hstep : autoStep cn st (.entry ts .whoSeparator) = st := by
                rcases hcz : st.currentZone with _ | cz <;>
                  rw [hcz] at hgate <;> simp [autoStep, hb, hgate, hcz]
              exact autoGate_triple_of_proj cn st _ _ _ _ (by rw [hstep]) (by rw [hstep])
          | false =>
              have hwin : isInRaidWindow ts = true ∧ isApprovedZone st.currentZone = true := by
                simpa using hgate
              have hB : ∀ k,
                  sessionAtt (autoStep cn st (.entry ts .whoSeparator)).sessionMap k
                  = sessionAtt st.sessionMap k := by
                intro k
                rcases hcz : st.currentZone with _ | cz <;> rw [hcz] at hgate
                · simp [autoStep, hb, hgate, hcz]
                · simp only [autoStep, hb, hgate, hcz, Bool.false_eq_true, if_false]
                  exact sessionAtt_lootPipe st.sessionMap ts cz k
              have hC : (autoStep cn st (.entry ts .whoSeparator)).currentZone
                  = st.currentZone := by
                rcases hcz : st.currentZone with _ | cz <;> rw [hcz] at hgate
                · simp [autoStep, hb, hgate, hcz]
                · simp only [autoStep, hb, hgate, hcz, Bool.false_eq_true, if_false]
              exact ⟨fun k hk => ⟨ts, .whoSeparator, rfl, hwin.1, hwin.2⟩,
                     fun k hk => absurd (hB k) hk,
                     fun hzx => absurd hC hzx⟩
  | whoPlayer p =>
      cases hb : st.inWhoBlock with
      | true =>
          refine autoGate_triple_of_proj cn st _ _ _ _ ?_ ?_ <;> simp [autoStep, hb]
      | false =>
          cases hgate : (!(isInRaidWindow ts) || !(isApprovedZone st.currentZone)) with
          | true =>
              have hstep : autoStep cn st (.entry ts (.whoPlayer p)) = st := by
                rcases hcz : st.currentZone with _ | cz <;>
                  rw [hcz] at hgate <;> simp [autoStep, hb, hgate, hcz]
              exact autoGate_triple_of_proj cn st _ _ _ _ (by rw [hstep]) (by rw [hstep])
          | false =>
              have hwin : isInRaidWindow ts = true ∧ isApprovedZone st.currentZone = true := by
                simpa using hgate
              have hB : ∀ k,
                  sessionAtt (autoStep cn st (.entry ts (.whoPlayer p))).sessionMap k
                  = sessionAtt st.sessionMap k := by
                intro k
                rcases hcz : st.currentZone with _ | cz <;> rw [hcz] at hgate
                · simp [autoStep, hb, hgate, hcz]
                · simp only [autoStep, hb, hgate, hcz, Bool.false_eq_true, if_false]
                  exact sessionAtt_lootPipe st.sessionMap ts cz k
              have hC : (autoStep cn st (.entry ts (.whoPlayer p))).currentZone
                  = st.currentZone := by
                rcases hcz : st.currentZone with _ | cz <;> rw [hcz] at hgate
                · simp [autoStep, hb, hgate, hcz]
                · simp only [autoStep, hb, hgate, hcz, Bool.false_eq_true, if_false]
              exact ⟨fun k hk => ⟨ts, .whoPlayer p, rfl, hwin.1, hwin.2⟩,
                     fun k hk => absurd (hB k) hk,
                     fun hzx => absurd hC hzx⟩
  | «other» =>
      cases hb : st.inWhoBlock with
      | true =>
          have hstep : autoStep cn st (.entry ts .other) = st := by
            simp [autoStep, hb]
          exact autoGate_triple_of_proj cn st _ _ _ _ (by rw [hstep]) (by rw [hstep])
      | false =>
          cases hgate : (!(isInRaidWindow ts) || !(isApprovedZone st.currentZone)) with
          | true =>
              have hstep : autoStep cn st (.entry ts .other) = st := by
                rcases hcz : st.currentZone with _ | cz <;>
                  rw [hcz] at hgate <;> simp [autoStep, hb, hgate, hcz]
              exact autoGate_triple_of_proj cn st _ _ _ _ (by rw [hstep]) (by rw [hstep])
          | false =>
              have hwin : isInRaidWindow ts = true ∧ isApprovedZone st.currentZone = true := by
                simpa using hgate
              have hB : ∀ k,
                  sessionAtt (autoStep cn st (.entry ts .other)).sessionMap k
                  = sessionAtt st.sessionMap k := by
                intro k
                rcases hcz : st.currentZone with _ | cz <;> rw [hcz] at hgate
                · simp [autoStep, hb, hgate, hcz]
                · simp only [autoStep, hb, hgate, hcz, Bool.false_eq_true, if_false]
                  exact sessionAtt_lootPipe st.sessionMap ts cz k
              have hC : (autoStep cn st (.entry ts .other)).currentZone
                  = st.currentZone := by
                rcases hcz : st.currentZone with _ | cz <;> rw [hcz] at hgate
                · simp [autoStep, hb, hgate, hcz]
                · simp only [autoStep, hb, hgate, hcz, Bool.false_eq_true, if_false]
              exact ⟨fun k hk => ⟨ts, .other, rfl, hwin.1, hwin.2⟩,
                     fun k hk => absurd (hB k) hk,
                     fun hzx => absurd hC hzx⟩
  | selfLoot item =>
      cases hb : st.inWhoBlock with
      | true =>
          have hstep : autoStep cn st (.entry ts (.selfLoot item)) = st := by
            simp [autoStep, hb]
          exact autoGate_triple_of_proj cn st _ _ _ _ (by rw [hstep]) (by rw [hstep])
      | false =>
          cases hgate : (!(isInRaidWindow ts) || !(isApprovedZone st.currentZone)) with
          | true =>
              have hstep : autoStep cn st (.entry ts (.selfLoot item)) = st := by
                rcases hcz : st.currentZone with _ | cz <;>
                  rw [hcz] at hgate <;> simp [autoStep, hb, hgate, hcz]
              exact autoGate_triple_of_proj cn st _ _ _ _ (by rw [hstep]) (by rw [hstep])
          | false =>
              have hwin : isInRaidWindow ts = true ∧ isApprovedZone st.currentZone = true := by
                simpa using hgate
              have hB : ∀ k,
                  sessionAtt (autoStep cn st (.entry ts (.selfLoot item))).sessionMap k
                  = sessionAtt st.sessionMap k := by
                intro k
                rcases hcz : st.currentZone with _ | cz <;> rw [hcz] at hgate
                · cases cn <;> simp [autoStep, hb, hgate, hcz]
                · cases cn with
                  | none =>
                      simp only [autoStep, hb, hgate, hcz, Bool.false_eq_true, if_false]
                      exact sessionAtt_lootPipe st.sessionMap ts cz k
                  | some cname =>
                      simp only [autoStep, hb, hgate, hcz, Bool.false_eq_true, if_false]
                      exact sessionAtt_lootPipe2 st.sessionMap ts cz
                        { playerName := some cname, itemName := item,
                          timestamp := ts, zone := some cz } k
              have hC : (autoStep cn st (.entry ts (.selfLoot item))).currentZone
                  = st.currentZone := by
                rcases hcz : st.currentZone with _ | cz <;> rw [hcz] at hgate
                · cases cn <;> simp [autoStep, hb, hgate, hcz]
                · cases cn <;>
                    simp only [autoStep, hb, hgate, hcz, Bool.false_eq_true, if_false]
              exact ⟨fun k hk => ⟨ts, .selfLoot item, rfl, hwin.1, hwin.2⟩,
                     fun k hk => absurd (hB k) hk,
                     fun hzx => absurd hC hzx⟩
  | otherLoot pl item =>
      cases hb : st.inWhoBlock with
      | true =>
          have hstep : autoStep cn st (.entry ts (.otherLoot pl item)) = st := by
            simp [autoStep, hb]
          exact autoGate_triple_of_proj cn st _ _ _ _ (by rw [hstep]) (by rw [hstep])
      | false =>
          cases hgate : (!(isInRaidWindow ts) || !(isApprovedZone st.currentZone)) with
          | true =>
              have hstep : autoStep cn st (.entry ts (.otherLoot pl item)) = st := by
                rcases hcz : st.currentZone with _ | cz <;>
                  rw [hcz] at hgate <;> simp [autoStep, hb, hgate, hcz]
              exact autoGate_triple_of_proj cn st _ _ _ _ (by rw [hstep]) (by rw [hstep])
          | false =>
              have hwin : isInRaidWindow ts = true ∧ isApprovedZone st.currentZone = true := by
                simpa using hgate
              have hB : ∀ k,
                  sessionAtt (autoStep cn st (.entry ts (.otherLoot pl item))).sessionMap k
                  = sessionAtt st.sessionMap k := by
                intro k
                rcases hcz : st.currentZone with _ | cz <;> rw [hcz] at hgate
                · simp [autoStep, hb, hgate, hcz]
                · simp only [autoStep, hb, hgate, hcz, Bool.false_eq_true, if_false]
                  exact sessionAtt_lootPipe2 st.sessionMap ts cz
                    { playerName := some pl, itemName := item,
                      timestamp := ts, zone := some cz } k
              have hC : (autoStep cn st (.entry ts (.otherLoot pl item))).currentZone
                  = st.currentZone := by
                rcases hcz : st.currentZone with _ | cz <;> rw [hcz] at hgate
                · simp [autoStep, hb, hgate, hcz]
                · simp only [autoStep, hb, hgate, hcz, Bool.false_eq_true, if_false]
              exact ⟨fun k hk => ⟨ts, .otherLoot pl item, rfl, hwin.1, hwin.2⟩,
                     fun k hk => absurd (hB k) hk,
                     fun hzx => absurd hC hzx⟩

/-- All four live gates hold trivially when the step leaves the state
unchanged. -/
theorem watchGate_of_eq (cfg : WatcherCfg) (st : WatchState) (l : Line)
    (h : processLine cfg st l = st) :
    ((processLine cfg st l).lootEvents ≠ st.lootEvents →
       ∃ ts c, l = .entry ts c ∧ watcherInRaidWindow cfg ts = true ∧
         watcherApprovedZone cfg st.currentZone = true) ∧
    (watchWindowInv cfg st →
      (processLine cfg st l).attendanceMap ≠ st.attendanceMap →
       ∃ ts wz, l = .entry ts (.whoFooter wz) ∧ st.inWhoBlock = true ∧
         watcherApprovedZone cfg (some wz) = true ∧
         watcherInRaidWindow cfg st.whoBlockUTC = true) ∧
    ((processLine cfg st l).inWhoBlock = true → st.inWhoBlock = false →
       ∃ ts, l = .entry ts .whoStart ∧ watcherInRaidWindow cfg ts = true) ∧
    ((processLine cfg st l).currentZone ≠ st.currentZone →
       ∃ ts z, l = .entry ts (.zoneEntry z) ∧
         (processLine cfg st l).currentZone = some z) := by
  refine ⟨fun hk => absurd (by rw [h]) hk,
          fun _ hk => absurd (by rw [h]) hk,
          fun h1 h2 => ?_,
          fun hk => absurd (by rw [h]) hk⟩
  rw [h] at h1
  rw [h2] at h1
  simp at h1

/-- Live-watcher half of the gating, per step over any state: loot changes
only on a line passing the configured recurrence with the current zone
approved; attendance changes (under the block-start invariant) only on a
roster footer of an open, approved, in-window block; a block only opens on
an in-window start marker; and only a zone-entry line writes the current
zone. -/
theorem watchStep_gating (cfg : WatcherCfg) (st : WatchState) (l : Line) :
    ((processLine cfg st l).lootEvents ≠ st.lootEvents →
       ∃ ts c, l = .entry ts c ∧ watcherInRaidWindow cfg ts = true ∧
         watcherApprovedZone cfg st.currentZone = true) ∧
    (watchWindowInv cfg st →
      (processLine cfg st l).attendanceMap ≠ st.attendanceMap →
       ∃ ts wz, l = .entry ts (.whoFooter wz) ∧ st.inWhoBlock = true ∧
         watcherApprovedZone cfg (some wz) = true ∧
         watcherInRaidWindow cfg st.whoBlockUTC = true) ∧
    ((processLine cfg st l).inWhoBlock = true → st.inWhoBlock = false →
       ∃ ts, l = .entry ts .whoStart ∧ watcherInRaidWindow cfg ts = true) ∧
    ((processLine cfg st l).currentZone ≠ st.currentZone →
       ∃ ts z, l = .entry ts (.zoneEntry z) ∧
         (processLine cfg st l).currentZone = some z) := by
  rcases l with _ | ⟨ts, c⟩
  · exact watchGate_of_eq cfg st .junk rfl
  cases c with
  | zoneEntry z =>
      have hstep : processLine cfg st (.entry ts (.zoneEntry z))
          = { st with currentZone := some z, zones := addZone st.zones z,
                      inWhoBlock := false } := rfl
      refine ⟨fun hk => absurd (by rw [hstep]) hk,
              fun _ hk => absurd (by rw [hstep]) hk,
              fun h1 h2 => ?_,
              fun _ => ⟨ts, z, rfl, by rw [hstep]⟩⟩
      rw [hstep] at h1
      simp at h1
  | whoStart =>
      cases hw : watcherInRaidWindow cfg ts with
      | false =>
          have hstep : processLine cfg st (.entry ts .whoStart) = st := by
            simp [processLine, hw]
          exact watchGate_of_eq cfg st _ hstep
      | true =>
          have hstep : processLine cfg st (.entry ts .whoStart)
              = { st with inWhoBlock := true, whoBlockUTC := ts, whoPlayers := [] } := by
            simp [processLine, hw]
          exact ⟨fun hk => absurd (by rw [hstep]) hk,
                 fun _ hk => absurd (by rw [hstep]) hk,
                 fun _ _ => ⟨ts, rfl, hw⟩,
                 fun hk => absurd (by rw [hstep]) hk⟩
  | whoSeparator =>
      rcases (Bool.eq_false_or_eq_true st.inWhoBlock).symm with hb | hb
      · cases hg : (!(watcherInRaidWindow cfg ts) || !(watcherApprovedZone cfg st.currentZone)) with
        | true => refine watchGate_of_eq cfg st _ ?_; simp [processLine, hb, hg]
        | false => refine watchGate_of_eq cfg st _ ?_; simp [processLine, hb, hg]
      · refine watchGate_of_eq cfg st _ ?_; simp [processLine, hb]
  | whoFooter wz =>
      rcases (Bool.eq_false_or_eq_true st.inWhoBlock).symm with hb | hb
      · cases hg : (!(watcherInRaidWindow cfg ts) || !(watcherApprovedZone cfg st.currentZone)) with
        | true => refine watchGate_of_eq cfg st _ ?_; simp [processLine, hb, hg]
        | false => refine watchGate_of_eq cfg st _ ?_; simp [processLine, hb, hg]
      · rcases (Bool.eq_false_or_eq_true (watcherApprovedZone cfg (some wz))).symm with ha | ha
        · have hstep : processLine cfg st (.entry ts (.whoFooter wz))
              = { st with inWhoBlock := false } := by
            simp [processLine, hb, ha]
          refine ⟨fun hk => absurd (by rw [hstep]) hk,
                  fun _ hk => absurd (by rw [hstep]) hk,
                  fun h1 _ => ?_,
                  fun hk => absurd (by rw [hstep]) hk⟩
          rw [hstep] at h1
          simp at h1
        · have hstep : processLine cfg st (.entry ts (.whoFooter wz))
              = { currentZone := st.currentZone, inWhoBlock := false,
                  whoBlockUTC := st.whoBlockUTC, whoPlayers := st.whoPlayers,
                  attendanceMap :=
                    flushWatch st.attendanceMap st.whoBlockUTC st.whoPlayers,
                  lootEvents := st.lootEvents, zones := st.zones } := by
            simp [processLine, hb, ha]
          refine ⟨fun hk => absurd (by rw [hstep]) hk,
                  fun hinv _ => ⟨ts, wz, rfl, hb, ha, hinv hb⟩,
                  fun h1 _ => ?_,
                  fun hk => absurd (by rw [hstep]) hk⟩
          rw [hstep] at h1
          simp at h1
  | whoPlayer p =>
      rcases (Bool.eq_false_or_eq_true st.inWhoBlock).symm with hb | hb
      · cases hg : (!(watcherInRaidWindow cfg ts) || !(watcherApprovedZone cfg st.currentZone)) with
        | true => refine watchGate_of_eq cfg st _ ?_; simp [processLine, hb, hg]
        | false => refine watchGate_of_eq cfg st _ ?_; simp [processLine, hb, hg]
      · have hstep : processLine cfg st (.entry ts (.whoPlayer p))
            = { st with whoPlayers := st.whoPlayers ++ [p] } := by
          simp [processLine, hb]
        refine ⟨fun hk => absurd (by rw [hstep]) hk,
                fun _ hk => absurd (by rw [hstep]) hk,
                fun _ h2 => ?_,
                fun hk => absurd (by rw [hstep]) hk⟩
        simp [hb] at h2
  | selfLoot item =>
      rcases (Bool.eq_false_or_eq_true st.inWhoBlock).symm with hb | hb
      · cases hg : (!(watcherInRaidWindow cfg ts) || !(watcherApprovedZone cfg st.currentZone)) with
        | true => refine watchGate_of_eq cfg st _ ?_; simp [processLine, hb, hg]
        | false =>
            have hwin : watcherInRaidWindow cfg ts = true
                ∧ watcherApprovedZone cfg st.currentZone = true := by
              simpa using hg
            cases hcn : cfg.characterName with
            | none =>
                refine watchGate_of_eq cfg st _ ?_; simp [processLine, hb, hg, hcn]
            | some cname =>
                have hstep : processLine cfg st (.entry ts (.selfLoot item))
                    = { st with lootEvents := st.lootEvents ++
                        [{ playerName := some cname, itemName := item,
                           timestamp := ts, zone := st.currentZone }] } := by
                  simp [processLine, hb, hg, hcn]
                refine ⟨fun _ => ⟨ts, .selfLoot item, rfl, hwin.1, hwin.2⟩,
                        fun _ hk => absurd (by rw [hstep]) hk,
                        fun h1 _ => ?_,
                        fun hk => absurd (by rw [hstep]) hk⟩
                rw [hstep] at h1
                simp [hb] at h1
      · refine watchGate_of_eq cfg st _ ?_; simp [processLine, hb]
  | otherLoot pl item =>
      rcases (Bool.eq_false_or_eq_true st.inWhoBlock).symm with hb | hb
      · cases hg : (!(watcherInRaidWindow cfg ts) || !(watcherApprovedZone cfg st.currentZone)) with
        | true => refine watchGate_of_eq cfg st _ ?_; simp [processLine, hb, hg]
        | false =>
            have hwin : watcherInRaidWindow cfg ts = true
                ∧ watcherApprovedZone cfg st.currentZone = true := by
              simpa using hg
            have hstep : processLine cfg st (.entry ts (.otherLoot pl item))
                = { st with lootEvents := st.lootEvents ++
                    [{ playerName := some pl, itemName := item,
                       timestamp := ts, zone := st.currentZone }] } := by
              simp [processLine, hb, hg]
            refine ⟨fun _ => ⟨ts, .otherLoot pl item, rfl, hwin.1, hwin.2⟩,
                    fun _ hk => absurd (by rw [hstep]) hk,
                    fun h1 _ => ?_,
                    fun hk => absurd (by rw [hstep]) hk⟩
            rw [hstep] at h1
            simp [hb] at h1
      · refine watchGate_of_eq cfg st _ ?_; simp [processLine, hb]
  | «other» =>
      rcases (Bool.eq_false_or_eq_true st.inWhoBlock).symm with hb | hb
      · cases hg : (!(watcherInRaidWindow cfg ts) || !(watcherApprovedZone cfg st.currentZone)) with
        | true => refine watchGate_of_eq cfg st _ ?_; simp [processLine, hb, hg]
        | false => refine watchGate_of_eq cfg st _ ?_; simp [processLine, hb, hg]
      · refine watchGate_of_eq cfg st _ ?_; simp [processLine, hb]

/-- One watcher step preserves the block-start invariant: the only write of
`inWhoBlock := true` is guarded by the raid-window check and sets
`whoBlockUTC` to the guarded instant. -/
theorem processLine_watchWindowInv (cfg : WatcherCfg) (st : WatchState) (l : Line)
    (h : watchWindowInv cfg st) : watchWindowInv cfg (processLine cfg st l) := by
  rcases l with _ | ⟨ts, c⟩
  · exact h
  cases c with
  | zoneEntry z =>
      intro hx
      simp [processLine] at hx
  | whoStart =>
      cases hw : watcherInRaidWindow cfg ts with
      | false =>
          have hstep : processLine cfg st (.entry ts .whoStart) = st := by
            simp [processLine, hw]
          rw [hstep]
          exact h
      | true =>
          have hstep : processLine cfg st (.entry ts .whoStart)
              = { st with inWhoBlock := true, whoBlockUTC := ts, whoPlayers := [] } := by
            simp [processLine, hw]
          rw [hstep]
          intro _
          exact hw
  | whoSeparator =>
      cases hb : st.inWhoBlock with
      | true =>
          rw [show processLine cfg st (.entry ts .whoSeparator) = st from by
            simp [processLine, hb]]
          exact h
      | false =>
          cases hg : (!(watcherInRaidWindow cfg ts) || !(watcherApprovedZone cfg st.currentZone)) with
          | true =>
              rw [show processLine cfg st (.entry ts .whoSeparator) = st from by
                simp [processLine, hb, hg]]
              exact h
          | false =>
              rw [show processLine cfg st (.entry ts .whoSeparator) = st from by
                simp [processLine, hb, hg]]
              exact h
  | whoFooter wz =>
      cases hb : st.inWhoBlock with
      | true =>
          cases ha : watcherApprovedZone cfg (some wz) with
          | false =>
              rw [show processLine cfg st (.entry ts (.whoFooter wz))
                  = { st with inWhoBlock := false } from by simp [processLine, hb, ha]]
              intro hx
              simp at hx
          | true =>
              rw [show processLine cfg st (.entry ts (.whoFooter wz))
                  = { currentZone := st.currentZone, inWhoBlock := false,
                      whoBlockUTC := st.whoBlockUTC, whoPlayers := st.whoPlayers,
                      attendanceMap :=
                        flushWatch st.attendanceMap st.whoBlockUTC st.whoPlayers,
                      lootEvents := st.lootEvents, zones := st.zones } from by
                simp [processLine, hb, ha]]
              intro hx
              simp at hx
      | false =>
          cases hg : (!(watcherInRaidWindow cfg ts) || !(watcherApprovedZone cfg st.currentZone)) with
          | true =>
              rw [show processLine cfg st (.entry ts (.whoFooter wz)) = st from by
                simp [processLine, hb, hg]]
              exact h
          | false =>
              rw [show processLine cfg st (.entry ts (.whoFooter wz)) = st from by
                simp [processLine, hb, hg]]
              exact h
  | whoPlayer p =>
      cases hb : st.inWhoBlock with
      | true =>
          rw [show processLine cfg st (.entry ts (.whoPlayer p))
              = { st with whoPlayers := st.whoPlayers ++ [p] } from by
            simp [processLine, hb]]
          intro hx
          exact h hx
      | false =>
          cases hg : (!(watcherInRaidWindow cfg ts) || !(watcherApprovedZone cfg st.currentZone)) with
          | true =>
              rw [show processLine cfg st (.entry ts (.whoPlayer p)) = st from by
                simp [processLine, hb, hg]]
              exact h
          | false =>
              rw [show processLine cfg st (.entry ts (.whoPlayer p)) = st from by
                simp [processLine, hb, hg]]
              exact h
  | selfLoot item =>
      cases hb : st.inWhoBlock with
      | true =>
          rw [show processLine cfg st (.entry ts (.selfLoot item)) = st from by
            simp [processLine, hb]]
          exact h
      | false =>
          cases hg : (!(watcherInRaidWindow cfg ts) || !(watcherApprovedZone cfg st.currentZone)) with
          | true =>
              rw [show processLine cfg st (.entry ts (.selfLoot item)) = st from by
                simp [processLine, hb, hg]]
              exact h
          | false =>
              cases hcn : cfg.characterName with
              | none =>
                  rw [show processLine cfg st (.entry ts (.selfLoot item)) = st from by
                    simp [processLine, hb, hg, hcn]]
                  exact h
              | some cname =>
                  rw [show processLine cfg st (.entry ts (.selfLoot item))
                      = { st with lootEvents := st.lootEvents ++
                          [{ playerName := some cname, itemName := item,
                             timestamp := ts, zone := st.currentZone }] } from by
                    simp [processLine, hb, hg, hcn]]
                  intro hx
                  exact h hx
  | otherLoot pl item =>
      cases hb : st.inWhoBlock with
      | true =>
          rw [show processLine cfg st (.entry ts (.otherLoot pl item)) = st from by
            simp [processLine, hb]]
          exact h
      | false =>
          cases hg : (!(watcherInRaidWindow cfg ts) || !(watcherApprovedZone cfg st.currentZone)) with
          | true =>
              rw [show processLine cfg st (.entry ts (.otherLoot pl item)) = st from by
                simp [processLine, hb, hg]]
              exact h
          | false =>
              rw [show processLine cfg st (.entry ts (.otherLoot pl item))
                  = { st with lootEvents := st.lootEvents ++
                      [{ playerName := some pl, itemName := item,
                         timestamp := ts, zone := st.currentZone }] } from by
                simp [processLine, hb, hg]]
              intro hx
              exact h hx
  | «other» =>
      cases hb : st.inWhoBlock with
      | true =>
          rw [show processLine cfg st (.entry ts .other) = st from by
            simp [processLine, hb]]
          exact h
      | false =>
          cases hg : (!(watcherInRaidWindow cfg ts) || !(watcherApprovedZone cfg st.currentZone)) with
          | true =>
              rw [show processLine cfg st (.entry ts .other) = st from by
                simp [processLine, hb, hg]]
              exact h
          | false =>
              rw [show processLine cfg st (.entry ts .other) = st from by
                simp [processLine, hb, hg]]
              exact h

theorem processLines_watchWindowInv (cfg : WatcherCfg) :
    ∀ (ls : List Line) (st : WatchState), watchWindowInv cfg st →
      watchWindowInv cfg (processLines cfg st ls) := by
  intro ls
  induction ls with
  | nil => intro st h; exact h
  | cons l ls ih =>
      intro st h
      exact ih (processLine cfg st l) (processLine_watchWindowInv cfg st l h)

/-- C6: gating of both auto-detect and live modes.  Auto half: any step that
changes a session bucket's loot happened on a line whose instant passes the
raid recurrence (UTC weekday in the set and UTC hour in the half-open range)
with the current zone approved; any step that changes a bucket's attendance
is a roster footer flushed from an open block whose footer zone is approved
and whose block-start instant is in the window; the current zone is only
ever set by a zone-entry line.  Live half, with the watcher's configured day
set, hours and approved zones: the same loot and zone-writer facts hold for
`processLine` over any state; the attendance fact holds under the
block-start invariant, which a block can only acquire from an in-window
start marker and which every state reached from the initial one satisfies. -/
theorem c6_recurrence_and_zone_gating :
    (∀ (cn : Option String) (st : AutoState) (l : Line),
      (∀ k, sessionLoot (autoStep cn st l).sessionMap k ≠ sessionLoot st.sessionMap k →
        ∃ ts c, l = .entry ts c ∧ isInRaidWindow ts = true ∧
          isApprovedZone st.currentZone = true) ∧
      (∀ k, sessionAtt (autoStep cn st l).sessionMap k ≠ sessionAtt st.sessionMap k →
        ∃ ts wz, l = .entry ts (.whoFooter wz) ∧ st.inWhoBlock = true ∧
          isApprovedZone (some wz) = true ∧ isInRaidWindow st.whoBlockUTC = true) ∧
      ((autoStep cn st l).currentZone ≠ st.currentZone →
        ∃ ts z, l = .entry ts (.zoneEntry z) ∧ (autoStep cn st l).currentZone = some z)) ∧
    (∀ (cfg : WatcherCfg) (st : WatchState) (l : Line),
      ((processLine cfg st l).lootEvents ≠ st.lootEvents →
        ∃ ts c, l = .entry ts c ∧ watcherInRaidWindow cfg ts = true ∧
          watcherApprovedZone cfg st.currentZone = true) ∧
      (watchWindowInv cfg st →
        (processLine cfg st l).attendanceMap ≠ st.attendanceMap →
        ∃ ts wz, l = .entry ts (.whoFooter wz) ∧ st.inWhoBlock = true ∧
          watcherApprovedZone cfg (some wz) = true ∧
          watcherInRaidWindow cfg st.whoBlockUTC = true) ∧
      ((processLine cfg st l).inWhoBlock = true → st.inWhoBlock = false →
        ∃ ts, l = .entry ts .whoStart ∧ watcherInRaidWindow cfg ts = true) ∧
      ((processLine cfg st l).currentZone ≠ st.currentZone →
        ∃ ts z, l = .entry ts (.zoneEntry z) ∧
          (processLine cfg st l).currentZone = some z)) ∧
    (∀ (cfg : WatcherCfg) (ls : List Line),
      watchWindowInv cfg (processLines cfg initWatchState ls)) :=
  ⟨autoStep_gating, watchStep_gating,
   fun cfg ls => processLines_watchWindowInv cfg ls initWatchState
     (by intro hx; simp [initWatchState] at hx)⟩

theorem c6_witness :
    (∃ ts c, (Line.entry 309600000 (Content.otherLoot "Bob" "Gem")) = Line.entry ts c ∧
       isInRaidWindow ts = true ∧
       isApprovedZone (AutoState.currentZone
         { currentZone := some "Sebilis", inWhoBlock := false, whoBlockUTC := 0,
           whoPlayers := [], sessionMap := [] }) = true) ∧
    (∃ ts wz, (Line.entry 309700000 (Content.whoFooter "Sebilis"))
         = Line.entry ts (Content.whoFooter wz) ∧
       openBlockWatchState.inWhoBlock = true ∧
       watcherApprovedZone sebilisWatcherCfg (some wz) = true ∧
       watcherInRaidWindow sebilisWatcherCfg openBlockWatchState.whoBlockUTC = true) :=
  ⟨(c6_recurrence_and_zone_gating.1 none
      { currentZone := some "Sebilis", inWhoBlock := false, whoBlockUTC := 0,
        whoPlayers := [], sessionMap := [] }
      (Line.entry 309600000 (Content.otherLoot "Bob" "Gem"))).1
      "1970-01-04" (by decide),
   (c6_recurrence_and_zone_gating.2.1 sebilisWatcherCfg openBlockWatchState
      (Line.entry 309700000 (Content.whoFooter "Sebilis"))).2.1
      (by intro hx; decide) (by decide)⟩

theorem lexLe_total : ∀ (a b : List Char), (lexLe a b || lexLe b a) = true := by
  intro a
  induction a with
  | nil => intro b; simp [lexLe]
  | cons a as ih =>
      intro b
      cases b with
      | nil => simp [lexLe]
      | cons b bs =>
          simp only [lexLe]
          rcases Nat.lt_trichotomy a.toNat b.toNat with h | h | h
          · simp [h]
          · have hn1 : ¬ a.toNat < b.toNat := by omega
            have hn2 : ¬ b.toNat < a.toNat := by omega
            simp only [hn1, hn2, if_false]
            exact ih bs
          · have hn1 : ¬ a.toNat < b.toNat := by omega
            simp [hn1, h]

theorem lexLe_trans : ∀ (a b c : List Char),
    lexLe a b = true → lexLe b c = true → lexLe a c = true := by
  intro a
  induction a with
  | nil => intro b c h1 h2; rfl
  | cons a as ih =>
      intro b c h1 h2
      cases b with
      | nil => simp [lexLe] at h1
      | cons b bs =>
          cases c with
          | nil => simp [lexLe] at h2
          | cons c cs =>
              simp only [lexLe] at h1 h2 ⊢
              rcases Nat.lt_trichotomy a.toNat b.toNat with hab | hab | hab
              · rcases Nat.lt_trichotomy b.toNat c.toNat with hbc | hbc | hbc
                · have hac : a.toNat < c.toNat := hab.trans hbc
                  simp [hac]
                · have hac : a.toNat < c.toNat := by omega
                  simp [hac]
                · have hnb : ¬ b.toNat < c.toNat := by omega
                  simp [hnb, hbc] at h2
              · rcases Nat.lt_trichotomy b.toNat c.toNat with hbc | hbc | hbc
                · have hac : a.toNat < c.toNat := by omega
                  simp [hac]
                · have hnab : ¬ a.toNat < b.toNat := by omega
                  have hnba : ¬ b.toNat < a.toNat := by omega
                  have hnbc : ¬ b.toNat < c.toNat := by omega
                  have hncb : ¬ c.toNat < b.toNat := by omega
                  have hnac : ¬ a.toNat < c.toNat := by omega
                  have hnca : ¬ c.toNat < a.toNat := by omega
                  simp only [hnab, hnba, if_false] at h1
                  simp only [hnbc, hncb, if_false] at h2
                  simp only [hnac, hnca, if_false]
                  exact ih bs cs h1 h2
                · have hnbc : ¬ b.toNat < c.toNat := by omega
                  simp [hnbc, hbc] at h2
              · have hnab : ¬ a.toNat < b.toNat := by omega
                simp [hnab, hab] at h1

theorem mem_insertSorted {α : Type} (le : α → α → Bool) (x a : α) :
    ∀ l : List α, a ∈ insertSorted le x l ↔ a = x ∨ a ∈ l := by
  intro l
  induction l with
  | nil => simp [insertSorted]
  | cons y ys ih =>
      cases h : le x y
      · simp only [insertSorted, h, Bool.false_eq_true, if_false, List.mem_cons, ih]
        tauto
      · simp only [insertSorted, h, if_true, List.mem_cons]

theorem pairwise_insertSorted {α : Type} (le : α → α → Bool)
    (htot : ∀ a b, (le a b || le b a) = true)
    (htrans : ∀ a b c, le a b = true → le b c = true → le a c = true)
    (x : α) : ∀ l : List α, l.Pairwise (fun a b => le a b = true) →
      (insertSorted le x l).Pairwise (fun a b => le a b = true) := by
  intro l
  induction l with
  | nil => intro _; simp [insertSorted]
  | cons y ys ih =>
      intro hp
      rcases List.pairwise_cons.mp hp with ⟨hy, hys⟩
      cases h : le x y
      · have hyx : le y x = true := by
          have htot' := htot x y
          rw [h] at htot'
          simpa using htot'
        simp only [insertSorted, h, Bool.false_eq_true, if_false]
        refine List.pairwise_cons.mpr ⟨?_, ih hys⟩
        intro z hz
        rcases (mem_insertSorted le x z ys).mp hz with rfl | hz
        · exact hyx
        · exact hy z hz
      · simp only [insertSorted, h, if_true]
        refine List.pairwise_cons.mpr ⟨?_, hp⟩
        intro z hz
        rcases List.mem_cons.mp hz with rfl | hz
        · exact h
        · exact htrans x y z h (hy z hz)

theorem mem_sortByLe {α : Type} (le : α → α → Bool) (a : α) (l : List α) :
    a ∈ sortByLe le l ↔ a ∈ l := by
  induction l with
  | nil => simp [sortByLe]
  | cons x xs ih =>
      show a ∈ insertSorted le x (sortByLe le xs) ↔ _
      rw [mem_insertSorted]
      simp [ih]

theorem pairwise_sortByLe {α : Type} (le : α → α → Bool)
    (htot : ∀ a b, (le a b || le b a) = true)
    (htrans : ∀ a b c, le a b = true → le b c = true → le a c = true)
    (l : List α) : (sortByLe le l).Pairwise (fun a b => le a b = true) := by
  induction l with
  | nil => simp [sortByLe]
  | cons x xs ih =>
      show (insertSorted le x (sortByLe le xs)).Pairwise _
      exact pairwise_insertSorted le htot htrans x _ ih

/-- C7: every session returned by a complete auto-mode scan has nonempty
attendance or nonempty loot (empty buckets are filtered out), and the
returned sessions are sorted ascending by their UTC calendar-date string
(code-point comparison of the `YYYY-MM-DD` keys). -/
theorem c7_sessions_filtered_and_sorted (cn : Option String) (ls : List Line) :
    (∀ s ∈ (autoParseLog cn ls).sessions, s.attendance ≠ [] ∨ s.loot ≠ []) ∧
    (autoParseLog cn ls).sessions.Pairwise (fun a b => dateLe a b = true) := by
  constructor
  · intro s hs
    have hs' := (mem_sortByLe dateLe s _).mp hs
    rcases List.mem_map.mp hs' with ⟨s0, hmem, rfl⟩
    have hp := (List.mem_filter.mp hmem).2
    rcases Bool.or_eq_true_iff.mp hp with h | h
    · left
      intro hnil
      have : s0.attendanceMap = [] := List.map_eq_nil_iff.mp hnil
      rw [this] at h
      simp at h
    · right
      intro hnil
      have hln : s0.loot = [] := hnil
      rw [hln] at h
      simp at h
  · exact pairwise_sortByLe dateLe (fun a b => lexLe_total a.date.data b.date.data)
      (fun a b c => lexLe_trans a.date.data b.date.data c.date.data) _

theorem splitCRLF_ne_nil : ∀ cs : List Char, splitCRLF cs ≠ [] := by
  intro cs
  induction cs using splitCRLF.induct with
  | case1 => simp [splitCRLF.eq_1]
  | case2 rest ih => simp [splitCRLF.eq_2]
  | case3 rest ih => simp [splitCRLF.eq_3]
  | case4 c rest hs1 hs2 heq ih =>
      rw [splitCRLF.eq_4 c rest hs1 hs2, heq]
      simp
  | case5 c rest hs1 hs2 l ls heq ih =>
      rw [splitCRLF.eq_4 c rest hs1 hs2, heq]
      simp

theorem splitCRLF_singleton : ∀ (xs l : List Char), splitCRLF xs = [l] → l = xs := by
  intro xs
  induction xs using splitCRLF.induct with
  | case1 =>
      intro l h
      rw [splitCRLF.eq_1] at h
      injection h with h1 _
      exact h1.symm
  | case2 rest ih =>
      intro l h
      rw [splitCRLF.eq_2] at h
      injection h with h1 h2
      exact absurd h2 (splitCRLF_ne_nil rest)
  | case3 rest ih =>
      intro l h
      rw [splitCRLF.eq_3] at h
      injection h with h1 h2
      exact absurd h2 (splitCRLF_ne_nil rest)
  | case4 c rest hs1 hs2 heq ih =>
      intro l h
      exact absurd heq (splitCRLF_ne_nil rest)
  | case5 c rest hs1 hs2 l1 ls heq ih =>
      intro l h
      rw [splitCRLF.eq_4 c rest hs1 hs2, heq] at h
      injection h with h1 h2
      subst h2
      have := ih l1 heq
      subst this
      exact h1.symm

theorem dropLast_cons_ne {α : Type} (x : α) (xs : List α) (h : xs ≠ []) :
    (x :: xs).dropLast = x :: xs.dropLast := by
  cases xs with
  | nil => exact absurd rfl h
  | cons y ys => rfl

theorem getLastD_cons_ne {α : Type} (x : α) (xs : List α) (d : α) (h : xs ≠ []) :
    (x :: xs).getLastD d = xs.getLastD d := by
  cases xs with
  | nil => exact absurd rfl h
  | cons y ys => rfl

theorem dropLast_append_ne {α : Type} (A B : List α) (h : B ≠ []) :
    (A ++ B).dropLast = A ++ B.dropLast := by
  induction A with
  | nil => rfl
  | cons a A ih =>
      have hne : A ++ B ≠ [] := by
        intro hx
        rcases List.append_eq_nil.mp hx with ⟨_, h2⟩
        exact h h2
      rw [List.cons_append, dropLast_cons_ne a (A ++ B) hne, ih, List.cons_append]

theorem getLastD_append_ne {α : Type} (A B : List α) (d : α) (h : B ≠ []) :
    (A ++ B).getLastD d = B.getLastD d := by
  induction A with
  | nil => rfl
  | cons a A ih =>
      have hne : A ++ B ≠ [] := by
        intro hx
        rcases List.append_eq_nil.mp hx with ⟨_, h2⟩
        exact h h2
      rw [List.cons_append, getLastD_cons_ne a (A ++ B) d hne, ih]

/-- Key compositionality of the splitter: re-splitting the carried-over last
piece against new text gives the same pieces as splitting the whole text. -/
theorem splitCRLF_append : ∀ (a b : List Char),
    splitCRLF (a ++ b)
      = (splitCRLF a).dropLast ++ splitCRLF ((splitCRLF a).getLastD [] ++ b) := by
  intro a
  induction a using splitCRLF.induct with
  | case1 => intro b; simp [splitCRLF.eq_1]
  | case2 rest ih =>
      intro b
      have hne := splitCRLF_ne_nil rest
      rw [List.cons_append, List.cons_append, splitCRLF.eq_2, splitCRLF.eq_2,
          dropLast_cons_ne _ _ hne, getLastD_cons_ne _ _ _ hne, ih b, List.cons_append]
  | case3 rest ih =>
      intro b
      have hne := splitCRLF_ne_nil rest
      rw [List.cons_append, splitCRLF.eq_3, splitCRLF.eq_3,
          dropLast_cons_ne _ _ hne, getLastD_cons_ne _ _ _ hne, ih b, List.cons_append]
  | case4 c rest hs1 hs2 heq ih =>
      intro b
      exact absurd heq (splitCRLF_ne_nil rest)
  | case5 c rest hs1 hs2 l1 ls heq ih =>
      intro b
      have hca : splitCRLF (c :: rest) = (c :: l1) :: ls := by
        rw [splitCRLF.eq_4 c rest hs1 hs2, heq]
      cases rest with
      | nil =>
          rw [splitCRLF.eq_1] at heq
          injection heq with hq1 hq2
          subst hq2
          subst hq1
          rw [hca]
          have hgl : ([c :: ([] : List Char)] : List (List Char)).getLastD [] = [c] := rfl
          rw [hgl]
          simp
      | cons r rest2 =>
          have hr : ∀ rest1, c = '\r' → (r :: rest2) ++ b = '\n' :: rest1 → False := by
            intro rest1 h1 h2
            rw [List.cons_append] at h2
            injection h2 with h2a h2b
            exact hs1 rest2 h1 (by rw [h2a])
          have hl : splitCRLF (c :: ((r :: rest2) ++ b))
              = match splitCRLF ((r :: rest2) ++ b) with
                | [] => [[c]]
                | l :: ls => (c :: l) :: ls :=
            splitCRLF.eq_4 c ((r :: rest2) ++ b) hr hs2
          cases ls with
          | nil =>
              have hls : l1 = r :: rest2 := splitCRLF_singleton (r :: rest2) l1 heq
              rw [hca]
              subst hls
              simp only [List.dropLast_single, List.nil_append]
              have hgl : ([c :: r :: rest2] : List (List Char)).getLastD [] = c :: r :: rest2 := rfl
              rw [hgl]
          | cons l2 ls2 =>
              have hlsne : (l2 :: ls2 : List (List Char)) ≠ [] := by simp
              rw [List.cons_append, hl, ih b, heq,
                  dropLast_cons_ne l1 (l2 :: ls2) hlsne,
                  getLastD_cons_ne l1 (l2 :: ls2) [] hlsne]
              rw [hca, dropLast_cons_ne (c :: l1) (l2 :: ls2) hlsne,
                  getLastD_cons_ne (c :: l1) (l2 :: ls2) [] hlsne]
              rfl

theorem splitCRLF_noTerm : ∀ xs : List Char, noTerminator xs = true → splitCRLF xs = [xs] := by
  intro xs
  induction xs with
  | nil => intro _; rfl
  | cons c cs ih =>
      intro h
      simp only [noTerminator, List.all_cons, Bool.and_eq_true] at h
      obtain ⟨⟨hn, hrr⟩, hcs⟩ := h
      have hcn : ¬ (c = '\n') := by simpa using hn
      have hcr : ¬ (c = '\r') := by simpa using hrr
      rw [splitCRLF.eq_4 c cs (fun r h1 _ => hcr h1) (fun h1 => hcn h1), ih hcs]

theorem splitCRLF_noTerm_newline : ∀ (xs ys : List Char), noTerminator xs = true →
    splitCRLF (xs ++ '\n' :: ys) = xs :: splitCRLF ys := by
  intro xs
  induction xs with
  | nil => intro ys _; rw [List.nil_append, splitCRLF.eq_3]
  | cons c cs ih =>
      intro ys h
      simp only [noTerminator, List.all_cons, Bool.and_eq_true] at h
      obtain ⟨⟨hn, hrr⟩, hcs⟩ := h
      have hcn : ¬ (c = '\n') := by simpa using hn
      have hcr : ¬ (c = '\r') := by simpa using hrr
      rw [List.cons_append,
          splitCRLF.eq_4 c (cs ++ '\n' :: ys) (fun r h1 _ => hcr h1) (fun h1 => hcn h1),
          ih ys hcs]

theorem noTerminator_append (xs ys : List Char)
    (hx : noTerminator xs = true) (hy : noTerminator ys = true) :
    noTerminator (xs ++ ys) = true := by
  unfold noTerminator at *
  rw [List.all_append, hx, hy]
  rfl

/-- C8: live-tail chunk reassembly.  First, `_readNew` text processing is
compositional: feeding two appended chunks one at a time (with the pending
partial line carried over) ends in exactly the same pending text and emitted
line sequence as feeding their concatenation, and hence feeding any nonempty
chunk sequence equals feeding the concatenated text; consequently the
classified line sequence (each emitted line goes through `_processLine` in
order) is the same either way.  Second, the concrete scenario: a chunk
holding one complete terminator-ended line plus a partial tail emits exactly
that one line and saves the tail, and the next chunk supplying the
terminator emits exactly the completed second line. -/
theorem c8_chunk_reassembly :
    (∀ (tb : TailBuf) (c1 c2 : List Char),
       readChunk (readChunk tb c1) c2 = readChunk tb (c1 ++ c2)) ∧
    (∀ (tb : TailBuf) (c : List Char) (cs : List (List Char)),
       readChunks tb (c :: cs) = readChunk tb (c :: cs).flatten) ∧
    (∀ l1 p1 p2 : List Char,
       noTerminator l1 = true → noTerminator p1 = true → noTerminator p2 = true →
       readChunk { pending := [], emitted := [] } (l1 ++ '\n' :: p1)
         = { pending := p1, emitted := [l1] } ∧
       readChunk { pending := p1, emitted := [l1] } (p2 ++ ['\n'])
         = { pending := [], emitted := [l1, p1 ++ p2] }) := by
  have hcomp : ∀ (tb : TailBuf) (c1 c2 : List Char),
      readChunk (readChunk tb c1) c2 = readChunk tb (c1 ++ c2) := by
    intro tb c1 c2
    have hS2ne := splitCRLF_ne_nil ((splitCRLF (tb.pending ++ c1)).getLastD [] ++ c2)
    have hkey : splitCRLF (tb.pending ++ (c1 ++ c2))
        = (splitCRLF (tb.pending ++ c1)).dropLast
          ++ splitCRLF ((splitCRLF (tb.pending ++ c1)).getLastD [] ++ c2) := by
      rw [← List.append_assoc]
      exact splitCRLF_append (tb.pending ++ c1) c2
    show ({ pending := (splitCRLF ((splitCRLF (tb.pending ++ c1)).getLastD [] ++ c2)).getLastD [],
            emitted := (tb.emitted ++ (splitCRLF (tb.pending ++ c1)).dropLast)
              ++ (splitCRLF ((splitCRLF (tb.pending ++ c1)).getLastD [] ++ c2)).dropLast } : TailBuf)
        = { pending := (splitCRLF (tb.pending ++ (c1 ++ c2))).getLastD [],
            emitted := tb.emitted ++ (splitCRLF (tb.pending ++ (c1 ++ c2))).dropLast }
    rw [hkey, getLastD_append_ne _ _ _ hS2ne, dropLast_append_ne _ _ hS2ne, List.append_assoc]
  refine ⟨hcomp, ?_, ?_⟩
  · intro tb c cs
    induction cs generalizing tb c with
    | nil => simp [readChunks]
    | cons c2 cs2 ih =>
        have h1 : readChunks tb (c :: c2 :: cs2) = readChunks (readChunk tb c) (c2 :: cs2) := rfl
        rw [h1, ih (readChunk tb c) c2, hcomp]
        rfl
  · intro l1 p1 p2 h1 h2 h3
    constructor
    · unfold readChunk
      rw [List.nil_append, splitCRLF_noTerm_newline l1 p1 h1, splitCRLF_noTerm p1 h2]
      rfl
    · unfold readChunk
      have hpp : splitCRLF (p1 ++ (p2 ++ ['\n'])) = [p1 ++ p2, []] := by
        rw [← List.append_assoc]
        have := splitCRLF_noTerm_newline (p1 ++ p2) [] (noTerminator_append p1 p2 h2 h3)
        rw [this, splitCRLF.eq_1]
      rw [hpp]
      rfl

theorem c8_witness :
    readChunk { pending := [], emitted := [] } ("one".data ++ '\n' :: "tw".data)
      = { pending := "tw".data, emitted := ["one".data] } ∧
    readChunk { pending := "tw".data, emitted := ["one".data] } ("o".data ++ ['\n'])
      = { pending := [], emitted := ["one".data, "tw".data ++ "o".data] } :=
  c8_chunk_reassembly.2.2 "one".data "tw".data "o".data (by decide) (by decide) (by decide)

theorem scan_buffer_inert (cfg : BatchCfg) : ∀ (ls : List Line) (st : ScanState)
    (ps : List Player) (t : Int), st.inWhoBlock = false →
    (parseLogScan cfg { st with whoPlayers := ps, whoBlockTime := t } ls).attendanceMap
      = (parseLogScan cfg st ls).attendanceMap ∧
    (parseLogScan cfg { st with whoPlayers := ps, whoBlockTime := t } ls).lootEvents
      = (parseLogScan cfg st ls).lootEvents := by
  intro ls
  induction ls with
  | nil => intro st ps t hb; exact ⟨rfl, rfl⟩
  | cons l ls ih =>
      intro st ps t hb
      rcases l with _ | ⟨ts, c⟩
      · exact ih st ps t hb
      cases hw : (ts < cfg.startTime || ts > cfg.endTime) with
      | true =>
          have e1 : parseLogStep cfg { st with whoPlayers := ps, whoBlockTime := t }
              (.entry ts c) = { st with whoPlayers := ps, whoBlockTime := t } := by
            simp only [parseLogStep, hw, if_true]
          have e2 : parseLogStep cfg st (.entry ts c) = st := by
            simp only [parseLogStep, hw, if_true]
          simp only [parseLogScan, List.foldl_cons]
          rw [e1, e2]
          exact ih st ps t hb
      | false =>
          cases c with
          | zoneEntry z =>
              have e1 : parseLogStep cfg { st with whoPlayers := ps, whoBlockTime := t }
                  (.entry ts (.zoneEntry z))
                  = { { st with currentZone := some z, inWhoBlock := false }
                      with whoPlayers := ps, whoBlockTime := t } := by
                simp only [parseLogStep, hw, Bool.false_eq_true, if_false]
              have e2 : parseLogStep cfg st (.entry ts (.zoneEntry z))
                  = { st with currentZone := some z, inWhoBlock := false } := by
                simp only [parseLogStep, hw, Bool.false_eq_true, if_false]
              simp only [parseLogScan, List.foldl_cons]
              rw [e1, e2]
              exact ih { st with currentZone := some z, inWhoBlock := false } ps t rfl
          | whoStart =>
              have e1 : parseLogStep cfg { st with whoPlayers := ps, whoBlockTime := t }
                  (.entry ts .whoStart)
                  = { st with inWhoBlock := true, whoBlockTime := ts, whoPlayers := [] } := by
                simp only [parseLogStep, hw, Bool.false_eq_true, if_false]
              have e2 : parseLogStep cfg st (.entry ts .whoStart)
                  = { st with inWhoBlock := true, whoBlockTime := ts, whoPlayers := [] } := by
                simp only [parseLogStep, hw, Bool.false_eq_true, if_false]
              simp only [parseLogScan, List.foldl_cons]
              rw [e1, e2]
              exact ⟨rfl, rfl⟩
          | whoSeparator =>
              have e1 : parseLogStep cfg { st with whoPlayers := ps, whoBlockTime := t }
                  (.entry ts .whoSeparator) = { st with whoPlayers := ps, whoBlockTime := t } := by
                cases hm : zoneMatchesFilters st.currentZone cfg.zoneFilters <;>
                  simp [parseLogStep, hw, hb, hm]
              have e2 : parseLogStep cfg st (.entry ts .whoSeparator) = st := by
                cases hm : zoneMatchesFilters st.currentZone cfg.zoneFilters <;>
                  simp [parseLogStep, hw, hb, hm]
              simp only [parseLogScan, List.foldl_cons]
              rw [e1, e2]
              exact ih st ps t hb
          | whoFooter wz =>
              have e1 : parseLogStep cfg { st with whoPlayers := ps, whoBlockTime := t }
                  (.entry ts (.whoFooter wz)) = { st with whoPlayers := ps, whoBlockTime := t } := by
                cases hm : zoneMatchesFilters st.currentZone cfg.zoneFilters <;>
                  simp [parseLogStep, hw, hb, hm]
              have e2 : parseLogStep cfg st (.entry ts (.whoFooter wz)) = st := by
                cases hm : zoneMatchesFilters st.currentZone cfg.zoneFilters <;>
                  simp [parseLogStep, hw, hb, hm]
              simp only [parseLogScan, List.foldl_cons]
              rw [e1, e2]
              exact ih st ps t hb
          | whoPlayer p =>
              have e1 : parseLogStep cfg { st with whoPlayers := ps, whoBlockTime := t }
                  (.entry ts (.whoPlayer p)) = { st with whoPlayers := ps, whoBlockTime := t } := by
                cases hm : zoneMatchesFilters st.currentZone cfg.zoneFilters <;>
                  simp [parseLogStep, hw, hb, hm]
              have e2 : parseLogStep cfg st (.entry ts (.whoPlayer p)) = st := by
                cases hm : zoneMatchesFilters st.currentZone cfg.zoneFilters <;>
                  simp [parseLogStep, hw, hb, hm]
              simp only [parseLogScan, List.foldl_cons]
              rw [e1, e2]
              exact ih st ps t hb
          | «other» =>
              have e1 : parseLogStep cfg { st with whoPlayers := ps, whoBlockTime := t }
                  (.entry ts .other) = { st with whoPlayers := ps, whoBlockTime := t } := by
                cases hm : zoneMatchesFilters st.currentZone cfg.zoneFilters <;>
                  simp [parseLogStep, hw, hb, hm]
              have e2 : parseLogStep cfg st (.entry ts .other) = st := by
                cases hm : zoneMatchesFilters st.currentZone cfg.zoneFilters <;>
                  simp [parseLogStep, hw, hb, hm]
              simp only [parseLogScan, List.foldl_cons]
              rw [e1, e2]
              exact ih st ps t hb
          | selfLoot item =>
              cases hm : zoneMatchesFilters st.currentZone cfg.zoneFilters with
              | false =>
                  have e1 : parseLogStep cfg { st with whoPlayers := ps, whoBlockTime := t }
                      (.entry ts (.selfLoot item))
                      = { st with whoPlayers := ps, whoBlockTime := t } := by
                    simp [parseLogStep, hw, hb, hm]
                  have e2 : parseLogStep cfg st (.entry ts (.selfLoot item)) = st := by
                    simp [parseLogStep, hw, hb, hm]
                  simp only [parseLogScan, List.foldl_cons]
                  rw [e1, e2]
                  exact ih st ps t hb
              | true =>
                  have e1 : parseLogStep cfg { st with whoPlayers := ps, whoBlockTime := t }
                      (.entry ts (.selfLoot item))
                      = { currentZone := st.currentZone, inWhoBlock := st.inWhoBlock,
                          whoBlockTime := t, whoPlayers := ps,
                          attendanceMap := st.attendanceMap,
                          lootEvents := st.lootEvents ++
                            [{ playerName := cfg.characterName, itemName := item,
                               timestamp := ts, zone := st.currentZone }] } := by
                    simp [parseLogStep, hw, hb, hm]
                  have e2 : parseLogStep cfg st (.entry ts (.selfLoot item))
                      = { st with lootEvents := st.lootEvents ++
                            [{ playerName := cfg.characterName, itemName := item,
                               timestamp := ts, zone := st.currentZone }] } := by
                    simp [parseLogStep, hw, hb, hm]
                  simp only [parseLogScan, List.foldl_cons]
                  rw [e1, e2]
                  exact ih { st with lootEvents := st.lootEvents ++
                      [{ playerName := cfg.characterName, itemName := item,
                         timestamp := ts, zone := st.currentZone }] } ps t hb
          | otherLoot pl item =>
              cases hm : zoneMatchesFilters st.currentZone cfg.zoneFilters with
              | false =>
                  have e1 : parseLogStep cfg { st with whoPlayers := ps, whoBlockTime := t }
                      (.entry ts (.otherLoot pl item))
                      = { st with whoPlayers := ps, whoBlockTime := t } := by
                    simp [parseLogStep, hw, hb, hm]
                  have e2 : parseLogStep cfg st (.entry ts (.otherLoot pl item)) = st := by
                    simp [parseLogStep, hw, hb, hm]
                  simp only [parseLogScan, List.foldl_cons]
                  rw [e1, e2]
                  exact ih st ps t hb
              | true =>
                  have e1 : parseLogStep cfg { st with whoPlayers := ps, whoBlockTime := t }
                      (.entry ts (.otherLoot pl item))
                      = { currentZone := st.currentZone, inWhoBlock := st.inWhoBlock,
                          whoBlockTime := t, whoPlayers := ps,
                          attendanceMap := st.attendanceMap,
                          lootEvents := st.lootEvents ++
                            [{ playerName := some pl, itemName := item,
                               timestamp := ts, zone := st.currentZone }] } := by
                    simp [parseLogStep, hw, hb, hm]
                  have e2 : parseLogStep cfg st (.entry ts (.otherLoot pl item))
                      = { st with lootEvents := st.lootEvents ++
                            [{ playerName := some pl, itemName := item,
                               timestamp := ts, zone := st.currentZone }] } := by
                    simp [parseLogStep, hw, hb, hm]
                  simp only [parseLogScan, List.foldl_cons]
                  rw [e1, e2]
                  exact ih { st with lootEvents := st.lootEvents ++
                      [{ playerName := some pl, itemName := item,
                         timestamp := ts, zone := st.currentZone }] } ps t hb

theorem parseLogScan_append (cfg : BatchCfg) (st : ScanState) (a b : List Line) :
    parseLogScan cfg st (a ++ b) = parseLogScan cfg (parseLogScan cfg st a) b := by
  simp [parseLogScan, List.foldl_append]

theorem parseLogScan_cons (cfg : BatchCfg) (st : ScanState) (l : Line) (ls : List Line) :
    parseLogScan cfg st (l :: ls) = parseLogScan cfg (parseLogStep cfg st l) ls := rfl

theorem scan_blockNeutral (cfg : BatchCfg) : ∀ (mid : List Line) (st : ScanState),
    st.inWhoBlock = true → (∀ l ∈ mid, blockNeutral cfg l = true) →
    (parseLogScan cfg st mid).currentZone = st.currentZone ∧
    (parseLogScan cfg st mid).inWhoBlock = true ∧
    (parseLogScan cfg st mid).attendanceMap = st.attendanceMap ∧
    (parseLogScan cfg st mid).lootEvents = st.lootEvents := by
  intro mid
  induction mid with
  | nil => intro st hb _; exact ⟨rfl, hb, rfl, rfl⟩
  | cons l mid ih =>
      intro st hb hmid
      have hl := hmid l (List.mem_cons_self _ _)
      have hrest : ∀ x ∈ mid, blockNeutral cfg x = true :=
        fun x hx => hmid x (List.mem_cons_of_mem _ hx)
      rcases l with _ | ⟨ts, c⟩
      · exact ih st hb hrest
      cases hw : (ts < cfg.startTime || ts > cfg.endTime) with
      | true =>
          have e : parseLogStep cfg st (.entry ts c) = st := by
            simp only [parseLogStep, hw, if_true]
          rw [parseLogScan_cons, e]
          exact ih st hb hrest
      | false =>
          have hbn := hl
          simp only [blockNeutral, inBatchWindow, hw] at hbn
          cases c with
          | zoneEntry z => simp at hbn
          | whoStart => simp at hbn
          | whoFooter wz => simp at hbn
          | whoSeparator =>
              have e : parseLogStep cfg st (.entry ts .whoSeparator) = st := by
                simp [parseLogStep, hw, hb]
              rw [parseLogScan_cons, e]
              exact ih st hb hrest
          | whoPlayer p =>
              have e : parseLogStep cfg st (.entry ts (.whoPlayer p))
                  = { st with whoPlayers := st.whoPlayers ++ [p] } := by
                simp [parseLogStep, hw, hb]
              rw [parseLogScan_cons, e]
              exact ih { st with whoPlayers := st.whoPlayers ++ [p] } hb hrest
          | selfLoot item =>
              have e : parseLogStep cfg st (.entry ts (.selfLoot item)) = st := by
                simp [parseLogStep, hw, hb]
              rw [parseLogScan_cons, e]
              exact ih st hb hrest
          | otherLoot pl item =>
              have e : parseLogStep cfg st (.entry ts (.otherLoot pl item)) = st := by
                simp [parseLogStep, hw, hb]
              rw [parseLogScan_cons, e]
              exact ih st hb hrest
          | «other» =>
              have e : parseLogStep cfg st (.entry ts .other) = st := by
                simp [parseLogStep, hw, hb]
              rw [parseLogScan_cons, e]
              exact ih st hb hrest

theorem scanAbortedBlock (cfg : BatchCfg) (st : ScanState) (mid suf : List Line)
    (tS tz : Int) (z : String)
    (hS : inBatchWindow cfg tS = true) (hz : inBatchWindow cfg tz = true)
    (hmid : ∀ l ∈ mid, blockNeutral cfg l = true) :
    (parseLogScan cfg st
        ((Line.entry tS .whoStart :: mid) ++ (Line.entry tz (.zoneEntry z) :: suf))).attendanceMap
      = (parseLogScan cfg st (Line.entry tz (.zoneEntry z) :: suf)).attendanceMap ∧
    (parseLogScan cfg st
        ((Line.entry tS .whoStart :: mid) ++ (Line.entry tz (.zoneEntry z) :: suf))).lootEvents
      = (parseLogScan cfg st (Line.entry tz (.zoneEntry z) :: suf)).lootEvents := by
  have hwS : (tS < cfg.startTime || tS > cfg.endTime) = false := by
    simpa [inBatchWindow] using hS
  have hwz : (tz < cfg.startTime || tz > cfg.endTime) = false := by
    simpa [inBatchWindow] using hz
  have e1 : parseLogStep cfg st (.entry tS .whoStart)
      = { st with inWhoBlock := true, whoBlockTime := tS, whoPlayers := [] } := by
    simp only [parseLogStep, hwS, Bool.false_eq_true, if_false]
  obtain ⟨hcz2, hib2, hatt2, hloot2⟩ := scan_blockNeutral cfg mid
    { st with inWhoBlock := true, whoBlockTime := tS, whoPlayers := [] } rfl hmid
  have hatt2' : (parseLogScan cfg
      { st with inWhoBlock := true, whoBlockTime := tS, whoPlayers := [] } mid).attendanceMap
      = st.attendanceMap := hatt2
  have hloot2' : (parseLogScan cfg
      { st with inWhoBlock := true, whoBlockTime := tS, whoPlayers := [] } mid).lootEvents
      = st.lootEvents := hloot2
  have key : parseLogStep cfg
      (parseLogScan cfg { st with inWhoBlock := true, whoBlockTime := tS, whoPlayers := [] } mid)
      (.entry tz (.zoneEntry z))
      = { currentZone := some z, inWhoBlock := false,
          whoBlockTime := (parseLogScan cfg
            { st with inWhoBlock := true, whoBlockTime := tS, whoPlayers := [] } mid).whoBlockTime,
          whoPlayers := (parseLogScan cfg
            { st with inWhoBlock := true, whoBlockTime := tS, whoPlayers := [] } mid).whoPlayers,
          attendanceMap := st.attendanceMap, lootEvents := st.lootEvents } := by
    have e : parseLogStep cfg
        (parseLogScan cfg { st with inWhoBlock := true, whoBlockTime := tS, whoPlayers := [] } mid)
        (.entry tz (.zoneEntry z))
        = { currentZone := some z, inWhoBlock := false,
            whoBlockTime := (parseLogScan cfg
              { st with inWhoBlock := true, whoBlockTime := tS, whoPlayers := [] } mid).whoBlockTime,
            whoPlayers := (parseLogScan cfg
              { st with inWhoBlock := true, whoBlockTime := tS, whoPlayers := [] } mid).whoPlayers,
            attendanceMap := (parseLogScan cfg
              { st with inWhoBlock := true, whoBlockTime := tS, whoPlayers := [] } mid).attendanceMap,
            lootEvents := (parseLogScan cfg
              { st with inWhoBlock := true, whoBlockTime := tS, whoPlayers := [] } mid).lootEvents } := by
      simp only [parseLogStep, hwz, Bool.false_eq_true, if_false]
    rw [e, hatt2', hloot2']
  have eR : parseLogStep cfg st (.entry tz (.zoneEntry z))
      = { st with currentZone := some z, inWhoBlock := false } := by
    simp only [parseLogStep, hwz, Bool.false_eq_true, if_false]
  obtain ⟨ha, hl⟩ := scan_buffer_inert cfg suf
    { st with currentZone := some z, inWhoBlock := false }
    (parseLogScan cfg { st with inWhoBlock := true, whoBlockTime := tS, whoPlayers := [] } mid).whoPlayers
    (parseLogScan cfg { st with inWhoBlock := true, whoBlockTime := tS, whoPlayers := [] } mid).whoBlockTime
    rfl
  constructor
  · rw [parseLogScan_append, parseLogScan_cons cfg st (.entry tS .whoStart) mid, e1,
        parseLogScan_cons, key, parseLogScan_cons cfg st (.entry tz (.zoneEntry z)) suf, eR]
    exact ha
  · rw [parseLogScan_append, parseLogScan_cons cfg st (.entry tS .whoStart) mid, e1,
        parseLogScan_cons, key, parseLogScan_cons cfg st (.entry tz (.zoneEntry z)) suf, eR]
    exact hl

/-- C3: a roster block opened by the start marker but interrupted by a
zone-entry line before its footer contributes nothing to the batch result:
with any lines in between that cannot end, abort or restart the block,
deleting the start marker and those buffered lines from the input leaves
both the attendance map and the loot list of the scan unchanged — stated
for every scanner state (first conjunct) and for the full `parseLog` run
on any prefix (second conjunct). -/
theorem c3_aborted_block_never_flushes :
    (∀ (cfg : BatchCfg) (st : ScanState) (mid suf : List Line) (tS tz : Int) (z : String),
      inBatchWindow cfg tS = true → inBatchWindow cfg tz = true →
      (∀ l ∈ mid, blockNeutral cfg l = true) →
      (parseLogScan cfg st ((Line.entry tS .whoStart :: mid)
          ++ (Line.entry tz (.zoneEntry z) :: suf))).attendanceMap
        = (parseLogScan cfg st (Line.entry tz (.zoneEntry z) :: suf)).attendanceMap ∧
      (parseLogScan cfg st ((Line.entry tS .whoStart :: mid)
          ++ (Line.entry tz (.zoneEntry z) :: suf))).lootEvents
        = (parseLogScan cfg st (Line.entry tz (.zoneEntry z) :: suf)).lootEvents) ∧
    (∀ (startT endT : Int) (zones : List String) (cn : Option String)
        (pre mid suf : List Line) (tS tz : Int) (z : String),
      startT ≤ tS → tS ≤ endT → startT ≤ tz → tz ≤ endT →
      (∀ l ∈ mid, blockNeutral
        { startTime := startT, endTime := endT,
          zoneFilters := zones.map normalizeZone, characterName := cn } l = true) →
      (parseLog startT endT zones cn
          (pre ++ ((Line.entry tS .whoStart :: mid)
            ++ (Line.entry tz (.zoneEntry z) :: suf)))).attendance
        = (parseLog startT endT zones cn
            (pre ++ (Line.entry tz (.zoneEntry z) :: suf))).attendance ∧
      (parseLog startT endT zones cn
          (pre ++ ((Line.entry tS .whoStart :: mid)
            ++ (Line.entry tz (.zoneEntry z) :: suf)))).loot
        = (parseLog startT endT zones cn
            (pre ++ (Line.entry tz (.zoneEntry z) :: suf))).loot) := by
  constructor
  · intro cfg st mid suf tS tz z hS hz hmid
    exact scanAbortedBlock cfg st mid suf tS tz z hS hz hmid
  · intro startT endT zones cn pre mid suf tS tz z h1 h2 h3 h4 hmid
    have hS : inBatchWindow
        { startTime := startT, endTime := endT,
          zoneFilters := zones.map normalizeZone, characterName := cn } tS = true := by
      simp only [inBatchWindow, Bool.not_eq_true', Bool.or_eq_false_iff,
        decide_eq_false_iff_not]
      omega
    have hz' : inBatchWindow
        { startTime := startT, endTime := endT,
          zoneFilters := zones.map normalizeZone, characterName := cn } tz = true := by
      simp only [inBatchWindow, Bool.not_eq_true', Bool.or_eq_false_iff,
        decide_eq_false_iff_not]
      omega
    obtain ⟨ha, hl⟩ := scanAbortedBlock
      { startTime := startT, endTime := endT,
        zoneFilters := zones.map normalizeZone, characterName := cn }
      (parseLogScan
        { startTime := startT, endTime := endT,
          zoneFilters := zones.map normalizeZone, characterName := cn }
        initScanState pre) mid suf tS tz z hS hz' hmid
    constructor
    · show ((parseLogScan
          { startTime := startT, endTime := endT,
            zoneFilters := zones.map normalizeZone, characterName := cn }
          initScanState (pre ++ ((Line.entry tS .whoStart :: mid)
            ++ (Line.entry tz (.zoneEntry z) :: suf)))).attendanceMap).map (fun kv => kv.2)
        = ((parseLogScan
            { startTime := startT, endTime := endT,
              zoneFilters := zones.map normalizeZone, characterName := cn }
            initScanState (pre ++ (Line.entry tz (.zoneEntry z) :: suf))).attendanceMap).map
              (fun kv => kv.2)
      rw [parseLogScan_append
            { startTime := startT, endTime := endT,
              zoneFilters := zones.map normalizeZone, characterName := cn }
            initScanState pre ((Line.entry tS .whoStart :: mid)
              ++ (Line.entry tz (.zoneEntry z) :: suf)),
          parseLogScan_append
            { startTime := startT, endTime := endT,
              zoneFilters := zones.map normalizeZone, characterName := cn }
            initScanState pre (Line.entry tz (.zoneEntry z) :: suf),
          ha]
    · show (parseLogScan
          { startTime := startT, endTime := endT,
            zoneFilters := zones.map normalizeZone, characterName := cn }
          initScanState (pre ++ ((Line.entry tS .whoStart :: mid)
            ++ (Line.entry tz (.zoneEntry z) :: suf)))).lootEvents
        = (parseLogScan
            { startTime := startT, endTime := endT,
              zoneFilters := zones.map normalizeZone, characterName := cn }
            initScanState (pre ++ (Line.entry tz (.zoneEntry z) :: suf))).lootEvents
      rw [parseLogScan_append
            { startTime := startT, endTime := endT,
              zoneFilters := zones.map normalizeZone, characterName := cn }
            initScanState pre ((Line.entry tS .whoStart :: mid)
              ++ (Line.entry tz (.zoneEntry z) :: suf)),
          parseLogScan_append
            { startTime := startT, endTime := endT,
              zoneFilters := zones.map normalizeZone, characterName := cn }
            initScanState pre (Line.entry tz (.zoneEntry z) :: suf),
          hl]

theorem c3_witness :
    (parseLog 0 1000 ["Fungus Grove"] none
        ([Line.junk] ++ ((Line.entry 100 .whoStart
            :: [Line.entry 110 (.whoPlayer lyriFirst)])
          ++ (Line.entry 150 (.zoneEntry "Chardok") :: [])))).attendance
      = (parseLog 0 1000 ["Fungus Grove"] none
          ([Line.junk] ++ (Line.entry 150 (.zoneEntry "Chardok") :: []))).attendance ∧
    (parseLog 0 1000 ["Fungus Grove"] none
        ([Line.junk] ++ ((Line.entry 100 .whoStart
            :: [Line.entry 110 (.whoPlayer lyriFirst)])
          ++ (Line.entry 150 (.zoneEntry "Chardok") :: [])))).loot
      = (parseLog 0 1000 ["Fungus Grove"] none
          ([Line.junk] ++ (Line.entry 150 (.zoneEntry "Chardok") :: []))).loot :=
  c3_aborted_block_never_flushes.2 0 1000 ["Fungus Grove"] none
    [Line.junk] [Line.entry 110 (.whoPlayer lyriFirst)] [] 100 150 "Chardok"
    (by decide) (by decide) (by decide) (by decide) (by decide)
